import Mathlib

/-
Verification development for the ItemEjectorSystem of
src/src/js/game/systems/item_ejector.js: the ejector connectivity cache
(invalidation tracker, cache builder) and the per-tick transfer scheduler
with its handover dispatcher.

The system's own code is embedded faithfully, function by function.
External collaborators that the source file merely calls (the Rectangle
helpers, the tile map, placement geometry, the acceptor query interface
and the receiver capability methods) are not part of the given source;
they are modelled from the spec, as marked on each definition.
-/

namespace ItemEjector

/-- Integer tile vector (core/vector Vector, restricted to tile coordinates). -/
structure Vector where
  x : Int
  y : Int
deriving DecidableEq

/-- Vector addition (Vector.add / addInplace in core/vector). -/
def Vector.add (a b : Vector) : Vector := ⟨a.x + b.x, a.y + b.y⟩

/-- The four cardinal directions (enumDirection in core/vector). -/
inductive Direction
  | top
  | right
  | bottom
  | left
deriving DecidableEq

/-- Unit vector of a direction (enumDirectionToVector in core/vector). -/
def enumDirectionToVector : Direction → Vector
  | .top => ⟨0, -1⟩
  | .right => ⟨1, 0⟩
  | .bottom => ⟨0, 1⟩
  | .left => ⟨-1, 0⟩

/-- Modelled from the spec: the axis-aligned tile rectangle used by the
invalidation tracker (core/rectangle Rectangle is outside the given source).
`x, y` is the top-left corner, `w, h` the extent. -/
structure Rectangle where
  x : Int
  y : Int
  w : Int
  h : Int
deriving DecidableEq

/-- Right edge of a rectangle (Rectangle.right). -/
def Rectangle.right (r : Rectangle) : Int := r.x + r.w

/-- Bottom edge of a rectangle (Rectangle.bottom). -/
def Rectangle.bottom (r : Rectangle) : Int := r.y + r.h

/-- Modelled from the spec: expand a rectangle by a fixed margin in all
directions (Rectangle.expandedInAllDirections, used with margin 2 by
checkForCacheInvalidation). -/
def Rectangle.expandedInAllDirections (r : Rectangle) (amount : Int) : Rectangle :=
  ⟨r.x - amount, r.y - amount, r.w + 2 * amount, r.h + 2 * amount⟩

/-- Modelled from the spec: merge of two pending areas into a single
rectangle covering their union, as the bounding box (Rectangle.getUnion);
the spec allows over-approximation. -/
def Rectangle.getUnion (r o : Rectangle) : Rectangle :=
  let l := min r.x o.x
  let t := min r.y o.y
  let rr := max r.right o.right
  let bb := max r.bottom o.bottom
  ⟨l, t, rr - l, bb - t⟩

/-- Tile membership in a rectangle: the tiles visited by the loops
`for x in [r.x, r.right())`, `for y in [r.y, r.bottom())`. -/
def Rectangle.containsPoint (r : Rectangle) (p : Vector) : Prop :=
  r.x ≤ p.x ∧ p.x < r.right ∧ r.y ≤ p.y ∧ p.y < r.bottom

instance (r : Rectangle) (p : Vector) : Decidable (r.containsPoint p) := by
  unfold Rectangle.containsPoint; infer_instance

/-- Rectangle containment, coordinate-wise (sub ⊆ sup). -/
def Rectangle.containsRect (sup sub : Rectangle) : Prop :=
  sup.x ≤ sub.x ∧ sub.right ≤ sup.right ∧ sup.y ≤ sub.y ∧ sub.bottom ≤ sup.bottom

instance (r s : Rectangle) : Decidable (r.containsRect s) := by
  unfold Rectangle.containsRect; infer_instance

/-- The tiles of a rectangle in the visit order of recomputeAreaCache:
x outer loop, y inner loop. -/
def Rectangle.tileList (r : Rectangle) : List Vector :=
  (List.range r.w.toNat).flatMap (fun (dx : Nat) =>
    (List.range r.h.toNat).map (fun (dy : Nat) => ⟨r.x + (dx : Int), r.y + (dy : Int)⟩))

/-- Opaque item identity (BaseItem is outside the given source). -/
abbrev Item := Nat

/-- Modelled from the spec: the match descriptor returned by the acceptor
query (slot index and accepted direction), as consumed through
`destSlot.index` and `destSlot.acceptedDirection` by the source. -/
structure AcceptorSlotMatch where
  index : Nat
  acceptedDirection : Direction
deriving DecidableEq

/-- Modelled from the spec (Acceptor Query Interface): `findMatchingSlot`
takes the target tile and incoming direction expressed in the acceptor's
local space; `canAcceptItem` is the side-effect-free capacity/filter check.
Both are opaque to the ejector system and kept as abstract functions. -/
structure ItemAcceptorComponent where
  findMatchingSlot : Vector → Direction → Option AcceptorSlotMatch
  canAcceptItem : Nat → Item → Bool

/-- Modelled from the spec: a belt transport path; the ejector only calls
its `tryAcceptItem` handover method. -/
structure BeltPath where
  tryAcceptItem : Item → Bool

/-- Modelled from the spec: belt capability; a placed belt may (invariant:
must) have an assigned transport path. -/
structure BeltComponent where
  assignedPath : Option BeltPath

/-- Modelled from the spec: storage capability (`canAcceptItem`; the
`takeItem` commit mutates storage-internal state outside this system). -/
structure StorageComponent where
  canAcceptItem : Item → Bool

/-- Modelled from the spec: item processor capability (`tryTakeItem`,
parametrized by the destination slot index). -/
structure ItemProcessorComponent where
  tryTakeItem : Item → Nat → Bool

/-- Modelled from the spec: underground belt capability
(`tryAcceptExternalItem`, parametrized by an externally supplied speed). -/
structure UndergroundBeltComponent where
  tryAcceptExternalItem : Item → Rat → Bool

/-- Modelled from the spec: energy generator capability (`tryTakeItem`). -/
structure EnergyGeneratorComponent where
  tryTakeItem : Item → Bool

/-- Modelled from the spec (Placement/Geometry interface): rotation-aware
local/world transforms and the tile-space bounding box of an entity's
StaticMapEntityComponent, kept abstract since that component's code is
outside the given source. -/
structure StaticMapEntityComponent where
  localTileToWorld : Vector → Vector
  localDirectionToWorld : Direction → Direction
  worldToLocalTile : Vector → Vector
  worldDirectionToLocal : Direction → Direction
  getTileSpaceBounds : Rectangle

/-- One ejector output slot (components/item_ejector.js slot record), with
the per-slot cache fields written by recomputeSingleEntityCache.
`cachedTargetEntity` holds the target entity reference by uid into the
object heap, mirroring a JS object reference. -/
structure EjectorSlot where
  pos : Vector
  direction : Direction
  item : Option Item
  progress : Rat
  cachedDestSlot : Option AcceptorSlotMatch
  cachedTargetEntity : Option Nat
deriving DecidableEq

/-- The ejector component: ordered slots plus the connectivity cache.
`cachedConnectedSlots` is `none` for JS `null`; a JS array of slot
references is represented by the list of slot indices (the JS array holds
aliases of the very slot objects, an index is the faithful counterpart). -/
structure ItemEjectorComponent where
  slots : List EjectorSlot
  cachedConnectedSlots : Option (List Nat)
deriving DecidableEq

/-- The component record of an entity, with exactly the component slots the
source file dereferences. A missing component is `none`. -/
structure Components where
  StaticMapEntity : Option StaticMapEntityComponent
  ItemEjector : Option ItemEjectorComponent
  ItemAcceptor : Option ItemAcceptorComponent
  Belt : Option BeltComponent
  Storage : Option StorageComponent
  ItemProcessor : Option ItemProcessorComponent
  UndergroundBelt : Option UndergroundBeltComponent
  EnergyGenerator : Option EnergyGeneratorComponent

/-- A game entity: identity plus components. -/
structure Entity where
  uid : Nat
  components : Components

/-- The state touched by the ItemEjectorSystem.
`objects` is the heap of all live JS entity objects (objects survive
destruction, only `map`/`allEntities` membership ends);
`map` is the tile content store (root.map), tile to uid;
`allEntities` is GameSystemWithFilter's list of tracked entities (those
with an ItemEjector component), by uid, in registration order;
`areaToRecompute` and `gameInitialized` are as in the source. -/
structure GameState where
  objects : List Entity
  map : List (Vector × Nat)
  allEntities : List Nat
  areaToRecompute : Option Rectangle
  gameInitialized : Bool

/-- Dereference an entity reference: look a uid up in the heap. -/
def getObject (objects : List Entity) (uid : Nat) : Option Entity :=
  objects.find? (fun e => decide (e.uid = uid))

/-- The uids of a heap. -/
def uidsOf (objects : List Entity) : List Nat := objects.map (·.uid)

/-- Modelled from the spec (Grid Adapter): tile content lookup
(root.map.getTileContent / getTileContentXY). -/
def GameState.getTileContent (s : GameState) (t : Vector) : Option Entity :=
  match s.map.find? (fun p => decide (p.1 = t)) with
  | none => none
  | some p => getObject s.objects p.2

/-- In-place mutation of the object with the given uid, seen through every
alias (JS reference semantics). -/
def mapObject (objects : List Entity) (uid : Nat) (f : Entity → Entity) : List Entity :=
  objects.map (fun o => if o.uid = uid then f o else o)

/-- Replace the ejector component of an entity object. -/
def setEntityEjector (c : ItemEjectorComponent) (o : Entity) : Entity :=
  { o with components := { o.components with ItemEjector := some c } }

/-- Replace slot j of an entity's ejector component (in-place slot object
mutation seen through the slots array). -/
def setEntitySlot (j : Nat) (sl : EjectorSlot) (o : Entity) : Entity :=
  match o.components.ItemEjector with
  | none => o
  | some comp =>
      { o with components :=
          { o.components with ItemEjector := some { comp with slots := comp.slots.set j sl } } }

/-- checkForCacheInvalidation (item_ejector.js lines 32-51): ignore events
before the game is initialized or on entities without placement geometry;
otherwise expand the entity's tile-space bounds by 2 and merge them into
the pending area. -/
def checkForCacheInvalidation (s : GameState) (entity : Entity) : GameState :=
  if !s.gameInitialized then s
  else
    match entity.components.StaticMapEntity with
    | none => s
    | some staticComp =>
        let bounds := staticComp.getTileSpaceBounds
        let expandedBounds := bounds.expandedInAllDirections 2
        match s.areaToRecompute with
        | some area => { s with areaToRecompute := some (area.getUnion expandedBounds) }
        | none => { s with areaToRecompute := some expandedBounds }

/-- The per-slot target resolution of recomputeSingleEntityCache
(item_ejector.js lines 131-159): world tile and direction of the slot, the
target tile one step further, its occupant, the occupant's acceptor and the
matching slot query in the target's local frame. Returns the target's uid
and the matching slot, or `none` where the source does `continue`.
The source dereferences the target's StaticMapEntity without a check (an
entity on the map always carries it); the impossible missing-static case
is folded into `none` here. -/
def resolveSlot (s : GameState) (staticComp : StaticMapEntityComponent)
    (ejectorSlot : EjectorSlot) : Option (Nat × AcceptorSlotMatch) :=
  let ejectSlotWsTile := staticComp.localTileToWorld ejectorSlot.pos
  let ejectSlotWsDirection := staticComp.localDirectionToWorld ejectorSlot.direction
  let ejectSlotWsDirectionVector := enumDirectionToVector ejectSlotWsDirection
  let ejectSlotTargetWsTile := ejectSlotWsTile.add ejectSlotWsDirectionVector
  match s.getTileContent ejectSlotTargetWsTile with
  | none => none
  | some targetEntity =>
      match targetEntity.components.ItemAcceptor, targetEntity.components.StaticMapEntity with
      | some targetAcceptorComp, some targetStaticComp =>
          match targetAcceptorComp.findMatchingSlot
              (targetStaticComp.worldToLocalTile ejectSlotTargetWsTile)
              (targetStaticComp.worldDirectionToLocal ejectSlotWsDirection) with
          | none => none
          | some matchingSlot => some (targetEntity.uid, matchingSlot)
      | _, _ => none

/-- The slot loop of recomputeSingleEntityCache (lines 124-169): clear each
slot's cache fields, resolve its target, and on a match set the fields and
push the slot onto cachedConnectedSlots (which starts out cleared to
JS null, becomes a fresh one-element array on the first match and is
appended to afterwards). `i` is the index of the first slot of the list,
`connected` the accumulator for cachedConnectedSlots. -/
def computeSlots (s : GameState) (staticComp : StaticMapEntityComponent) :
    List EjectorSlot → Nat → Option (List Nat) → List EjectorSlot × Option (List Nat)
  | [], _, connected => ([], connected)
  | slot :: rest, i, connected =>
      match resolveSlot s staticComp slot with
      | none =>
          let r := computeSlots s staticComp rest (i + 1) connected
          ({ slot with cachedDestSlot := none, cachedTargetEntity := none } :: r.1, r.2)
      | some (targetUid, matchingSlot) =>
          let connected2 :=
            match connected with
            | none => some [i]
            | some l => some (l ++ [i])
          let r := computeSlots s staticComp rest (i + 1) connected2
          ({ slot with
              cachedDestSlot := some matchingSlot
              cachedTargetEntity := some targetUid } :: r.1, r.2)

/-- recomputeSingleEntityCache (lines 117-170). The uid denotes the entity
object passed by the caller; both call sites guarantee it exists and
carries an ItemEjector component, so those `none` fallbacks are dead.
An entity with slots always carries StaticMapEntity (the source
dereferences it blindly); in the impossible missing case only the initial
cache clearing is kept. -/
def recomputeSingleEntityCache (s : GameState) (uid : Nat) : GameState :=
  match getObject s.objects uid with
  | none => s
  | some entity =>
      match entity.components.ItemEjector with
      | none => s
      | some ejectorComp =>
          let newComp :=
            match entity.components.StaticMapEntity with
            | some staticComp =>
                let r := computeSlots s staticComp ejectorComp.slots 0 none
                ItemEjectorComponent.mk r.1 r.2
            | none => { ejectorComp with cachedConnectedSlots := none }
          { s with objects := mapObject s.objects uid (setEntityEjector newComp) }

/-- One step of the tile loop of recomputeAreaCache (lines 98-110): look up
the tile content and recompute the entity if it carries an ejector and was
not visited yet in this call. -/
def recomputeAreaStep (acc : GameState × List Nat) (t : Vector) : GameState × List Nat :=
  match acc.1.getTileContent t with
  | none => acc
  | some entity =>
      if acc.2.contains entity.uid then acc
      else
        match entity.components.ItemEjector with
        | none => acc
        | some _ => (recomputeSingleEntityCache acc.1 entity.uid, acc.2 ++ [entity.uid])

/-- recomputeAreaCache (lines 90-112): recompute every ejector-carrying
entity occupying a tile of the area, deduplicated by the visited set. -/
def recomputeAreaCache (s : GameState) (area : Rectangle) : GameState :=
  (area.tileList.foldl recomputeAreaStep (s, [])).1

/-- recomputeCache (lines 56-84): consume the pending area if present,
otherwise recompute every tracked entity (dev-only debug rendering and
logging omitted, they do not touch this state). -/
def recomputeCache (s : GameState) : GameState :=
  match s.areaToRecompute with
  | some area => { recomputeAreaCache s area with areaToRecompute := none }
  | none => s.allEntities.foldl (fun acc uid => recomputeSingleEntityCache acc uid) s

/-- Stage 5 of tryPassOverItem (lines 279-287): the energy generator block,
falling through to the final `return false` of line 287. -/
def tryPassOverItemEnergy (item : Item) (receiver : Entity) : Bool :=
  match receiver.components.EnergyGenerator with
  | some energyGeneratorComp => energyGeneratorComp.tryTakeItem item
  | none => false

/-- Stage 4 of tryPassOverItem (lines 266-277): the underground belt block,
fed the externally supplied base speed, falling through to stage 5. -/
def tryPassOverItemUnderground (item : Item) (receiver : Entity)
    (undergroundBeltBaseSpeed : Rat) : Bool :=
  match receiver.components.UndergroundBelt with
  | some undergroundBeltComp =>
      if undergroundBeltComp.tryAcceptExternalItem item undergroundBeltBaseSpeed then true
      else tryPassOverItemEnergy item receiver
  | none => tryPassOverItemEnergy item receiver

/-- Stage 3 of tryPassOverItem (lines 258-264): the item processor block,
falling through to stage 4. -/
def tryPassOverItemProcessor (item : Item) (receiver : Entity) (slotIndex : Nat)
    (undergroundBeltBaseSpeed : Rat) : Bool :=
  match receiver.components.ItemProcessor with
  | some itemProcessorComp =>
      if itemProcessorComp.tryTakeItem item slotIndex then true
      else tryPassOverItemUnderground item receiver undergroundBeltBaseSpeed
  | none => tryPassOverItemUnderground item receiver undergroundBeltBaseSpeed

/-- Stage 2 of tryPassOverItem (lines 249-256): the storage block (the
`takeItem` commit mutates storage-internal state outside this system),
falling through to stage 3. -/
def tryPassOverItemStorage (item : Item) (receiver : Entity) (slotIndex : Nat)
    (undergroundBeltBaseSpeed : Rat) : Bool :=
  match receiver.components.Storage with
  | some storageComp =>
      if storageComp.canAcceptItem item then true
      else tryPassOverItemProcessor item receiver slotIndex undergroundBeltBaseSpeed
  | none => tryPassOverItemProcessor item receiver slotIndex undergroundBeltBaseSpeed

/-- tryPassOverItem (lines 235-288): try each capability of the receiver in
the fixed source order, returning true on the first that accepts;
`assert(path, "belt has no path")` is a fatal abort, modelled as an error
result. Stages after the belt never abort and are Bool-valued. -/
def tryPassOverItem (item : Item) (receiver : Entity) (slotIndex : Nat)
    (undergroundBeltBaseSpeed : Rat) : Except String Bool :=
  match receiver.components.Belt with
  | some beltComp =>
      match beltComp.assignedPath with
      | none => Except.error "belt has no path"
      | some path =>
          if path.tryAcceptItem item then Except.ok true
          else Except.ok (tryPassOverItemStorage item receiver slotIndex undergroundBeltBaseSpeed)
  | none => Except.ok (tryPassOverItemStorage item receiver slotIndex undergroundBeltBaseSpeed)

/-- The body of the cached-slot loop of update (lines 192-225), for the
cached slot with index `j` of the entity `uid`. A JS TypeError (blind
dereference of a null/absent field, possible only outside the reachable
states) is an error result; the source mutates `progress` before such a
throw, a difference visible only in the crashed state, which the game
never continues from. `tryPassOverItem` failures propagate (the assert
aborts the tick). The acceptor's `onItemAccepted` commit mutates
acceptor-internal state outside this system's state. -/
def updateSlot (progressGrowth undergroundSpeed : Rat)
    (objects : List Entity) (uid j : Nat) : Except String (List Entity) :=
  match getObject objects uid with
  | none => Except.ok objects
  | some sourceEntity =>
      match sourceEntity.components.ItemEjector with
      | none => Except.ok objects
      | some sourceEjectorComp =>
          match sourceEjectorComp.slots[j]? with
          | none => Except.ok objects
          | some sourceSlot =>
              match sourceSlot.item with
              | none => Except.ok objects
              | some item =>
                  let newProgress := min 1 (sourceSlot.progress + progressGrowth)
                  if newProgress < 1 then
                    Except.ok (mapObject objects uid
                      (setEntitySlot j { sourceSlot with progress := newProgress }))
                  else
                    match sourceSlot.cachedTargetEntity with
                    | none => Except.error "TypeError: cachedTargetEntity is null"
                    | some targetUid =>
                        match getObject objects targetUid with
                        | none => Except.error "TypeError: dangling reference"
                        | some targetEntity =>
                            match targetEntity.components.ItemAcceptor with
                            | none => Except.error "TypeError: no acceptor component"
                            | some targetAcceptorComp =>
                                match sourceSlot.cachedDestSlot with
                                | none => Except.error "TypeError: cachedDestSlot is null"
                                | some destSlot =>
                                    if targetAcceptorComp.canAcceptItem destSlot.index item then
                                      match tryPassOverItem item targetEntity destSlot.index
                                          undergroundSpeed with
                                      | Except.error msg => Except.error msg
                                      | Except.ok true =>
                                          Except.ok (mapObject objects uid
                                            (setEntitySlot j { sourceSlot with
                                              progress := newProgress, item := none }))
                                      | Except.ok false =>
                                          Except.ok (mapObject objects uid
                                            (setEntitySlot j { sourceSlot with
                                              progress := newProgress }))
                                    else
                                      Except.ok (mapObject objects uid
                                        (setEntitySlot j { sourceSlot with
                                          progress := newProgress }))

/-- The per-entity part of the update loop (lines 186-226): skip entities
whose cache is unset, otherwise run the slot body over the cached slots.
The cached list is read once; the tick never mutates it. -/
def updateEntitySlots (progressGrowth undergroundSpeed : Rat)
    (objects : List Entity) (uid : Nat) : Except String (List Entity) :=
  match getObject objects uid with
  | none => Except.ok objects
  | some e =>
      match e.components.ItemEjector with
      | none => Except.ok objects
      | some comp =>
          match comp.cachedConnectedSlots with
          | none => Except.ok objects
          | some js =>
              js.foldlM (fun os j => updateSlot progressGrowth undergroundSpeed os uid j) objects

/-- update (lines 172-227): consume a pending invalidation area, then run
the transfer loop over all tracked entities. `progressGrowth` (derived in
the source from the belt speed and the tick's delta time) and the
underground belt speed are external inputs and passed as parameters. -/
def update (progressGrowth undergroundSpeed : Rat) (s : GameState) :
    Except String GameState :=
  let s1 := if s.areaToRecompute.isSome then recomputeCache s else s
  match s1.allEntities.foldlM
      (fun os uid => updateEntitySlots progressGrowth undergroundSpeed os uid) s1.objects with
  | Except.error msg => Except.error msg
  | Except.ok os => Except.ok { s1 with objects := os }

/-! Helper definitions used by theorem statements. -/

/-- A no-component record, base for concrete example entities. -/
def noComponents : Components := ⟨none, none, none, none, none, none, none, none⟩

/-- A trivial placement: identity transforms with the given bounds (an
unrotated 1x1-style entity at the origin of its own frame). -/
def mkStatic (bounds : Rectangle) : StaticMapEntityComponent where
  localTileToWorld := fun v => v
  localDirectionToWorld := fun d => d
  worldToLocalTile := fun v => v
  worldDirectionToLocal := fun d => d
  getTileSpaceBounds := bounds

/-- The single-slot update performed on a slot by recomputeSingleEntityCache:
cache fields cleared, then set on a successful resolution. -/
def recomputedSlot (s : GameState) (st : StaticMapEntityComponent)
    (sl : EjectorSlot) : EjectorSlot :=
  match resolveSlot s st sl with
  | none => { sl with cachedDestSlot := none, cachedTargetEntity := none }
  | some (targetUid, matchingSlot) =>
      { sl with
          cachedDestSlot := some matchingSlot
          cachedTargetEntity := some targetUid }

/-- Indices (from `i`) of the slots whose target resolution succeeds: the
contents pushed onto cachedConnectedSlots by the recompute loop. -/
def hitIdxs (s : GameState) (st : StaticMapEntityComponent) :
    List EjectorSlot → Nat → List Nat
  | [], _ => []
  | sl :: rest, i =>
      if (resolveSlot s st sl).isSome then i :: hitIdxs s st rest (i + 1)
      else hitIdxs s st rest (i + 1)

/-- How the recompute loop extends a cachedConnectedSlots accumulator by
the hit indices: null stays null when nothing hits, otherwise an array. -/
def combineConn (conn : Option (List Nat)) (hs : List Nat) : Option (List Nat) :=
  match conn with
  | none => if hs = [] then none else some hs
  | some l => some (l ++ hs)

/-- Decision of the belt capability in tryPassOverItem (a missing path
aborts instead, see the C8 theorem). -/
def beltHandoverAccepts (receiver : Entity) (item : Item) : Bool :=
  match receiver.components.Belt with
  | some beltComp =>
      match beltComp.assignedPath with
      | some path => path.tryAcceptItem item
      | none => false
  | none => false

/-- Decision of the storage capability in tryPassOverItem. -/
def storageHandoverAccepts (receiver : Entity) (item : Item) : Bool :=
  match receiver.components.Storage with
  | some storageComp => storageComp.canAcceptItem item
  | none => false

/-- Decision of the item processor capability in tryPassOverItem. -/
def processorHandoverAccepts (receiver : Entity) (item : Item) (slotIndex : Nat) : Bool :=
  match receiver.components.ItemProcessor with
  | some itemProcessorComp => itemProcessorComp.tryTakeItem item slotIndex
  | none => false

/-- Decision of the underground belt capability in tryPassOverItem, fed
with the externally supplied transport speed. -/
def undergroundHandoverAccepts (receiver : Entity) (item : Item) (speed : Rat) : Bool :=
  match receiver.components.UndergroundBelt with
  | some undergroundBeltComp => undergroundBeltComp.tryAcceptExternalItem item speed
  | none => false

/-- Decision of the energy generator capability in tryPassOverItem. -/
def energyHandoverAccepts (receiver : Entity) (item : Item) : Bool :=
  match receiver.components.EnergyGenerator with
  | some energyGeneratorComp => energyGeneratorComp.tryTakeItem item
  | none => false

/-- A sequence of entity-added/entity-removed notifications hitting
checkForCacheInvalidation. -/
def notifyAll (s : GameState) (es : List Entity) : GameState :=
  es.foldl checkForCacheInvalidation s

/-- View of a slot with the recompute output fields cleared: exactly the
slot data recomputation reads (pos, direction) and copies (item,
progress). -/
def stripSlot (sl : EjectorSlot) : EjectorSlot :=
  { sl with cachedDestSlot := none, cachedTargetEntity := none }

/-- View of an entity with the ejector cache outputs cleared: everything
the recompute pass reads about an entity is preserved by this view. -/
def stripEntity (e : Entity) : Entity :=
  match e.components.ItemEjector with
  | none => e
  | some c => setEntityEjector ⟨c.slots.map stripSlot, none⟩ e

/-- The entity value recomputeSingleEntityCache installs for a given
entity, as a function of the state it reads (identity on entities without
an ejector, which the recompute pass never touches). -/
def applyRecompute (s : GameState) (e : Entity) : Entity :=
  match e.components.ItemEjector with
  | none => e
  | some c =>
      match e.components.StaticMapEntity with
      | some st =>
          setEntityEjector
            (ItemEjectorComponent.mk ((computeSlots s st c.slots 0 none).1)
              ((computeSlots s st c.slots 0 none).2)) e
      | none => setEntityEjector { c with cachedConnectedSlots := none } e

/-- Batch form of the recompute pass: install, for every uid in the list,
the cache computed against the read view of `s`. -/
def applyWrites (s : GameState) (us : List Nat) : GameState :=
  { s with
      objects := s.objects.map
        (fun e => if us.contains e.uid then applyRecompute s e else e) }

/-- Which entity (if any) a scanned tile adds to the visited set of
recomputeAreaCache. -/
def visitStep (s : GameState) (v : List Nat) (t : Vector) : List Nat :=
  match s.getTileContent t with
  | none => v
  | some e =>
      if v.contains e.uid then v
      else
        match e.components.ItemEjector with
        | none => v
        | some _ => v ++ [e.uid]

/-- The visited set produced by scanning the given tiles in order. -/
def visitFold (s : GameState) (v : List Nat) : List Vector → List Nat
  | [] => v
  | t :: ts => visitFold s (visitStep s v t) ts

/-- Modelled from the spec (events consumed, entity-added): the placement
data of an add event — the new entity object and the tiles it occupies on
the grid. -/
structure AddEvent where
  entity : Entity
  tiles : List Vector

/-- Modelled from the spec (events consumed): an entity-added or
entity-removed event. -/
inductive GameEvent
  | add : AddEvent → GameEvent
  | destroy : Nat → GameEvent

/-- Modelled from the spec: the grid bookkeeping of an event — the entity
manager and map register/unregister the entity (this code is outside the
given source) — followed by the entity-added/entity-destroyed signal into
checkForCacheInvalidation, as wired in the system's constructor. -/
def applyEvent (s : GameState) : GameEvent → GameState
  | .add d =>
      let s1 : GameState :=
        { s with
            objects := s.objects ++ [d.entity]
            map := s.map ++ d.tiles.map (fun t => (t, d.entity.uid))
            allEntities :=
              if d.entity.components.ItemEjector.isSome then s.allEntities ++ [d.entity.uid]
              else s.allEntities }
      checkForCacheInvalidation s1 d.entity
  | .destroy u =>
      match getObject s.objects u with
      | none => s
      | some e =>
          let s1 : GameState :=
            { s with
                map := s.map.filter (fun p => !(decide (p.2 = u)))
                allEntities := s.allEntities.filter (fun w => !(decide (w = u))) }
          checkForCacheInvalidation s1 e

/-- A sequence of add/remove events applied in order. -/
def applyEvents (s : GameState) : List GameEvent → GameState
  | [] => s
  | ev :: evs => applyEvents (applyEvent s ev) evs

/-- Sanity conditions of a single event against the current state: an added
entity is a fresh object placed on free tiles within its own bounds, with
its ejector slots on its own tiles and a fresh (never-computed) cache, per
the spec's lifecycle ("slots initialized empty, uncached"); a destroyed
entity exists and carries placement geometry. -/
def eventOK (s : GameState) : GameEvent → Bool
  | .add d =>
      (match d.entity.components.StaticMapEntity with
        | none => false
        | some st =>
            decide d.tiles.Nodup
            && !(decide (d.entity.uid ∈ uidsOf s.objects))
            && d.tiles.all (fun t =>
                !(decide (t ∈ s.map.map Prod.fst))
                && decide (st.getTileSpaceBounds.containsPoint t))
            && (match d.entity.components.ItemEjector with
                | none => true
                | some c =>
                    decide (c.cachedConnectedSlots = none)
                    && c.slots.all (fun sl =>
                        decide (sl.cachedDestSlot = none)
                        && decide (sl.cachedTargetEntity = none)
                        && decide (st.localTileToWorld sl.pos ∈ d.tiles))))
  | .destroy u =>
      match getObject s.objects u with
      | none => false
      | some e => e.components.StaticMapEntity.isSome

/-- Sanity of a whole event sequence, each event against the state it
hits. -/
def eventsOK (s : GameState) : List GameEvent → Bool
  | [] => true
  | ev :: evs => eventOK s ev && eventsOK (applyEvent s ev) evs

/-- Standing well-formedness of a state, as used by the incremental
correctness claim: unique object uids, tracked-entity uids and map keys;
every placed entity resolves, carries placement geometry and sits within
its bounds; every tracked entity resolves, carries an ejector and
placement geometry, and its ejector slots sit on its own mapped tiles;
every placed ejector-carrying entity is tracked. -/
def coherentB (s : GameState) : Bool :=
  decide (uidsOf s.objects).Nodup
  && decide s.allEntities.Nodup
  && decide (s.map.map Prod.fst).Nodup
  && s.map.all (fun p =>
      match getObject s.objects p.2 with
      | none => false
      | some e =>
          match e.components.StaticMapEntity with
          | none => false
          | some st => decide (st.getTileSpaceBounds.containsPoint p.1))
  && s.allEntities.all (fun u =>
      match getObject s.objects u with
      | none => false
      | some e =>
          match e.components.ItemEjector, e.components.StaticMapEntity with
          | some c, some st =>
              c.slots.all (fun sl => decide ((st.localTileToWorld sl.pos, u) ∈ s.map))
          | _, _ => false)
  && s.map.all (fun p =>
      match getObject s.objects p.2 with
      | none => false
      | some e =>
          !e.components.ItemEjector.isSome || decide (p.2 ∈ s.allEntities))

/-- The cache-output data of an ejector component (cachedConnectedSlots
plus every slot's cached destination and target fields). -/
def ejCacheData (c : ItemEjectorComponent) :
    Option (List Nat) × List (Option AcceptorSlotMatch × Option Nat) :=
  (c.cachedConnectedSlots, c.slots.map (fun sl => (sl.cachedDestSlot, sl.cachedTargetEntity)))

/-- Correctness of the stored caches of every tracked entity against the
current grid: what a fresh recompute would install is what is stored. -/
def cacheCorrectB (s : GameState) : Bool :=
  s.allEntities.all (fun u =>
    match getObject s.objects u with
    | none => true
    | some e =>
        match e.components.ItemEjector with
        | none => true
        | some c =>
            match e.components.StaticMapEntity with
            | some st =>
                decide (ejCacheData c
                  = ejCacheData (ItemEjectorComponent.mk
                      ((computeSlots s st c.slots 0 none).1)
                      ((computeSlots s st c.slots 0 none).2)))
            | none => decide (c.cachedConnectedSlots = none))

/-- Prop-level unpacking of coherentB, used by the incremental-correctness
proof. -/
structure CoherentFacts (s : GameState) : Prop where
  nodupUids : (uidsOf s.objects).Nodup
  nodupAll : s.allEntities.Nodup
  nodupKeys : (s.map.map Prod.fst).Nodup
  mapRes : ∀ p ∈ s.map, ∃ e st, getObject s.objects p.2 = some e
      ∧ e.components.StaticMapEntity = some st
      ∧ st.getTileSpaceBounds.containsPoint p.1
  allRes : ∀ u ∈ s.allEntities, ∃ e c st, getObject s.objects u = some e
      ∧ e.components.ItemEjector = some c
      ∧ e.components.StaticMapEntity = some st
      ∧ ∀ sl ∈ c.slots, (st.localTileToWorld sl.pos, u) ∈ s.map
  tracked : ∀ p ∈ s.map, ∀ e, getObject s.objects p.2 = some e →
      e.components.ItemEjector.isSome = true → p.2 ∈ s.allEntities

/-! Concrete example inputs for witnesses and counterexamples. -/

/-- A fresh, never-resolved ejector slot ejecting to the right. -/
def c6Slot : EjectorSlot := ⟨⟨0, 0⟩, .right, none, 0, none, none⟩

/-- An ejector entity whose single slot has no neighbor to deliver into. -/
def c6Entity : Entity :=
  { uid := 0
    components :=
      { noComponents with
          StaticMapEntity := some (mkStatic ⟨0, 0, 1, 1⟩)
          ItemEjector := some ⟨[c6Slot], none⟩ } }

/-- A world holding only the dead-end ejector entity, cache not yet
computed. -/
def c6State : GameState := ⟨[c6Entity], [(⟨0, 0⟩, 0)], [0], none, true⟩

/-- A receiver with only an always-accepting storage capability. -/
def c5Receiver : Entity := ⟨6, { noComponents with Storage := some ⟨fun _ => true⟩ }⟩

/-- A receiver carrying a belt capability with no assigned path. -/
def c8Receiver : Entity := ⟨5, { noComponents with Belt := some ⟨none⟩ }⟩

/-- The slot body of update, iterated over a number of ticks (the state
outside `objects` is not read by the slot body). -/
def iterateUpdateSlot (progressGrowth undergroundSpeed : Rat) (uid j : Nat) :
    Nat → List Entity → Except String (List Entity)
  | 0, objects => Except.ok objects
  | n + 1, objects =>
      match updateSlot progressGrowth undergroundSpeed objects uid j with
      | Except.error msg => Except.error msg
      | Except.ok os => iterateUpdateSlot progressGrowth undergroundSpeed uid j n os

/-- Projection: the item sitting on slot j of the entity uid. -/
def slotItem (s : GameState) (uid j : Nat) : Option Item :=
  match getObject s.objects uid with
  | none => none
  | some e =>
      match e.components.ItemEjector with
      | none => none
      | some c =>
          match c.slots[j]? with
          | none => none
          | some sl => sl.item

/-- Projection: the item on slot j of entity uid after one update tick
(none when the tick aborts). -/
def updatedSlotItem (progressGrowth undergroundSpeed : Rat) (s : GameState)
    (uid j : Nat) : Option (Option Item) :=
  match update progressGrowth undergroundSpeed s with
  | Except.error _ => none
  | Except.ok s2 => some (slotItem s2 uid j)

/-- A source slot mid-handover: item loaded, progress already at 1, cache
resolved to entity 2 slot 0. -/
def c2Slot : EjectorSlot := ⟨⟨0, 0⟩, .right, some 7, 1, some ⟨0, .left⟩, some 2⟩

/-- A source entity (uid 1) whose single connected slot is c2Slot. -/
def c2Src : Entity :=
  ⟨1, { noComponents with ItemEjector := some ⟨[c2Slot], some [0]⟩ }⟩

/-- A target (uid 2) whose acceptor always declines canAcceptItem. -/
def c2Tgt : Entity :=
  ⟨2, { noComponents with ItemAcceptor := some ⟨fun _ _ => none, fun _ _ => false⟩ }⟩

/-- The two-entity heap of the declining-acceptor scenario. -/
def c2Objects : List Entity := [c2Src, c2Tgt]

/-- A destroyed target (uid 2): still on the heap, acceptor and storage
accept everything, but no longer on the map or in the tracked list. -/
def c3Tgt : Entity :=
  ⟨2, { noComponents with
      ItemAcceptor := some ⟨fun _ _ => none, fun _ _ => true⟩
      Storage := some ⟨fun _ => true⟩ }⟩

/-- A world where entity 1's slot cache still points at the destroyed
entity 2: entity 2 is absent from map and allEntities, present on the
heap. -/
def c3State : GameState :=
  ⟨[c2Src, c3Tgt], [(⟨0, 0⟩, 1)], [1], none, true⟩

/-! General lemmas about the heap primitives. -/

theorem getObject_uid {objects : List Entity} {u : Nat} {e : Entity}
    (h : getObject objects u = some e) : e.uid = u := by
  unfold getObject at h
  simpa using List.find?_some h

theorem getObject_mapObject (objects : List Entity) (u : Nat) (f : Entity → Entity)
    (hf : ∀ e, (f e).uid = e.uid) (v : Nat) :
    getObject (mapObject objects u f) v
      = (getObject objects v).map (fun e => if e.uid = u then f e else e) := by
  unfold getObject mapObject
  rw [List.find?_map]
  have hp : ((fun e : Entity => decide (e.uid = v)) ∘ fun o => if o.uid = u then f o else o)
      = fun e : Entity => decide (e.uid = v) := by
    funext o
    by_cases h : o.uid = u <;> simp [h, hf o]
  rw [hp]

theorem getObject_mapObject_self (objects : List Entity) (u : Nat) (f : Entity → Entity)
    (hf : ∀ e, (f e).uid = e.uid) :
    getObject (mapObject objects u f) u = (getObject objects u).map f := by
  rw [getObject_mapObject objects u f hf u]
  cases h : getObject objects u with
  | none => rfl
  | some e => simp [getObject_uid h]

theorem getObject_mapObject_ne (objects : List Entity) (u : Nat) (f : Entity → Entity)
    (hf : ∀ e, (f e).uid = e.uid) (v : Nat) (hv : v ≠ u) :
    getObject (mapObject objects u f) v = getObject objects v := by
  rw [getObject_mapObject objects u f hf v]
  cases h : getObject objects v with
  | none => rfl
  | some e => simp [getObject_uid h, hv]

theorem setEntityEjector_uid (c : ItemEjectorComponent) (o : Entity) :
    (setEntityEjector c o).uid = o.uid := rfl

theorem setEntitySlot_uid (j : Nat) (sl : EjectorSlot) (o : Entity) :
    (setEntitySlot j sl o).uid = o.uid := by
  unfold setEntitySlot
  cases o.components.ItemEjector <;> rfl

theorem getObject_set_ejector_self (objects : List Entity) (u : Nat)
    (c : ItemEjectorComponent) :
    getObject (mapObject objects u (setEntityEjector c)) u
      = (getObject objects u).map (setEntityEjector c) :=
  getObject_mapObject_self objects u (setEntityEjector c) (fun _ => rfl)

theorem getObject_set_ejector_ne (objects : List Entity) (u : Nat)
    (c : ItemEjectorComponent) (v : Nat) (hv : v ≠ u) :
    getObject (mapObject objects u (setEntityEjector c)) v = getObject objects v :=
  getObject_mapObject_ne objects u (setEntityEjector c) (fun _ => rfl) v hv

theorem getObject_set_slot_self (objects : List Entity) (u : Nat)
    (j : Nat) (sl : EjectorSlot) :
    getObject (mapObject objects u (setEntitySlot j sl)) u
      = (getObject objects u).map (setEntitySlot j sl) :=
  getObject_mapObject_self objects u (setEntitySlot j sl) (setEntitySlot_uid j sl)

theorem getObject_set_slot_ne (objects : List Entity) (u : Nat)
    (j : Nat) (sl : EjectorSlot) (v : Nat) (hv : v ≠ u) :
    getObject (mapObject objects u (setEntitySlot j sl)) v = getObject objects v :=
  getObject_mapObject_ne objects u (setEntitySlot j sl) (setEntitySlot_uid j sl) v hv

/-! Lemmas characterizing the recompute slot loop. -/

theorem computeSlots_nil (s : GameState) (st : StaticMapEntityComponent)
    (i : Nat) (conn : Option (List Nat)) :
    computeSlots s st [] i conn = ([], conn) := rfl

theorem computeSlots_cons (s : GameState) (st : StaticMapEntityComponent)
    (sl : EjectorSlot) (rest : List EjectorSlot) (i : Nat) (conn : Option (List Nat)) :
    computeSlots s st (sl :: rest) i conn
      = match resolveSlot s st sl with
        | none =>
            (({ sl with cachedDestSlot := none, cachedTargetEntity := none } : EjectorSlot)
                :: (computeSlots s st rest (i + 1) conn).1,
              (computeSlots s st rest (i + 1) conn).2)
        | some (targetUid, matchingSlot) =>
            (({ sl with
                  cachedDestSlot := some matchingSlot
                  cachedTargetEntity := some targetUid } : EjectorSlot)
                :: (computeSlots s st rest (i + 1)
                    (match conn with
                      | none => some [i]
                      | some l => some (l ++ [i]))).1,
              (computeSlots s st rest (i + 1)
                  (match conn with
                    | none => some [i]
                    | some l => some (l ++ [i]))).2) := rfl

theorem hitIdxs_nil (s : GameState) (st : StaticMapEntityComponent) (i : Nat) :
    hitIdxs s st [] i = [] := rfl

theorem hitIdxs_cons (s : GameState) (st : StaticMapEntityComponent)
    (sl : EjectorSlot) (rest : List EjectorSlot) (i : Nat) :
    hitIdxs s st (sl :: rest) i
      = if (resolveSlot s st sl).isSome then i :: hitIdxs s st rest (i + 1)
        else hitIdxs s st rest (i + 1) := rfl

theorem computeSlots_fst (s : GameState) (st : StaticMapEntityComponent)
    (slots : List EjectorSlot) (i : Nat) (conn : Option (List Nat)) :
    (computeSlots s st slots i conn).1 = slots.map (recomputedSlot s st) := by
  induction slots generalizing i conn with
  | nil => rfl
  | cons sl rest ih =>
      rw [computeSlots_cons]
      cases hr : resolveSlot s st sl with
      | none => simp [hr, ih, recomputedSlot]
      | some pr =>
          obtain ⟨tu, m⟩ := pr
          simp [hr, ih, recomputedSlot]

theorem computeSlots_snd (s : GameState) (st : StaticMapEntityComponent)
    (slots : List EjectorSlot) (i : Nat) (conn : Option (List Nat)) :
    (computeSlots s st slots i conn).2 = combineConn conn (hitIdxs s st slots i) := by
  induction slots generalizing i conn with
  | nil =>
      rw [computeSlots_nil, hitIdxs_nil]
      cases conn <;> simp [combineConn]
  | cons sl rest ih =>
      rw [computeSlots_cons, hitIdxs_cons]
      cases hr : resolveSlot s st sl with
      | none => simp [hr, ih]
      | some pr =>
          obtain ⟨tu, m⟩ := pr
          cases conn with
          | none => simp [hr, ih, combineConn]
          | some l => simp [hr, ih, combineConn]

theorem computeSlots_snd_ne_nil (s : GameState) (st : StaticMapEntityComponent)
    (slots : List EjectorSlot) (i : Nat) (conn : Option (List Nat))
    (h : conn ≠ some []) : (computeSlots s st slots i conn).2 ≠ some [] := by
  rw [computeSlots_snd]
  cases conn with
  | none =>
      simp only [combineConn]
      split_ifs with hnil
      · simp
      · simp [hnil]
  | some l =>
      have hl : l ≠ [] := fun hh => h (by rw [hh])
      simp [combineConn, hl]

/-! Characterization of recomputeSingleEntityCache as a single write. -/

theorem recomputeSingle_write (s : GameState) (uid : Nat) (e : Entity)
    (comp : ItemEjectorComponent) (st : StaticMapEntityComponent)
    (he : getObject s.objects uid = some e)
    (hc : e.components.ItemEjector = some comp)
    (hst : e.components.StaticMapEntity = some st) :
    recomputeSingleEntityCache s uid
      = { s with
          objects := mapObject s.objects uid
            (setEntityEjector
              (ItemEjectorComponent.mk (comp.slots.map (recomputedSlot s st))
                (combineConn none (hitIdxs s st comp.slots 0)))) } := by
  simp only [recomputeSingleEntityCache, he, hc, hst, computeSlots_fst, computeSlots_snd]

theorem recomputeSingle_write_nostatic (s : GameState) (uid : Nat) (e : Entity)
    (comp : ItemEjectorComponent)
    (he : getObject s.objects uid = some e)
    (hc : e.components.ItemEjector = some comp)
    (hst : e.components.StaticMapEntity = none) :
    recomputeSingleEntityCache s uid
      = { s with
          objects := mapObject s.objects uid
            (setEntityEjector { comp with cachedConnectedSlots := none }) } := by
  simp only [recomputeSingleEntityCache, he, hc, hst]

theorem recomputeSingle_objects_self (s : GameState) (uid : Nat) (e : Entity)
    (comp : ItemEjectorComponent) (st : StaticMapEntityComponent)
    (he : getObject s.objects uid = some e)
    (hc : e.components.ItemEjector = some comp)
    (hst : e.components.StaticMapEntity = some st) :
    getObject (recomputeSingleEntityCache s uid).objects uid
      = some (setEntityEjector
          (ItemEjectorComponent.mk
            (comp.slots.map (recomputedSlot s st))
            (combineConn none (hitIdxs s st comp.slots 0))) e) := by
  rw [recomputeSingle_write s uid e comp st he hc hst]
  dsimp only
  rw [getObject_set_ejector_self, he]
  rfl

theorem recomputeSingle_objects_ne (s : GameState) (uid : Nat) (v : Nat) (hv : v ≠ uid) :
    getObject (recomputeSingleEntityCache s uid).objects v = getObject s.objects v := by
  unfold recomputeSingleEntityCache
  cases hg : getObject s.objects uid with
  | none => rfl
  | some e =>
      dsimp only
      cases hc : e.components.ItemEjector with
      | none => rfl
      | some comp =>
          dsimp only
          rw [getObject_set_ejector_ne _ _ _ v hv]

theorem recomputeSingle_map (s : GameState) (uid : Nat) :
    (recomputeSingleEntityCache s uid).map = s.map := by
  unfold recomputeSingleEntityCache
  cases hg : getObject s.objects uid with
  | none => rfl
  | some e =>
      dsimp only
      cases hc : e.components.ItemEjector with
      | none => rfl
      | some comp => rfl

theorem recomputeSingle_allEntities (s : GameState) (uid : Nat) :
    (recomputeSingleEntityCache s uid).allEntities = s.allEntities := by
  unfold recomputeSingleEntityCache
  cases hg : getObject s.objects uid with
  | none => rfl
  | some e =>
      dsimp only
      cases hc : e.components.ItemEjector with
      | none => rfl
      | some comp => rfl

theorem recomputeSingle_area (s : GameState) (uid : Nat) :
    (recomputeSingleEntityCache s uid).areaToRecompute = s.areaToRecompute := by
  unfold recomputeSingleEntityCache
  cases hg : getObject s.objects uid with
  | none => rfl
  | some e =>
      dsimp only
      cases hc : e.components.ItemEjector with
      | none => rfl
      | some comp => rfl

theorem recomputeSingle_gameInitialized (s : GameState) (uid : Nat) :
    (recomputeSingleEntityCache s uid).gameInitialized = s.gameInitialized := by
  unfold recomputeSingleEntityCache
  cases hg : getObject s.objects uid with
  | none => rfl
  | some e =>
      dsimp only
      cases hc : e.components.ItemEjector with
      | none => rfl
      | some comp => rfl

/-! Claim C10. -/

/-- C10: checkForCacheInvalidation returns the state unchanged — in
particular the pending areaToRecompute rectangle is untouched — whenever
the game is not yet initialized or the notifying entity carries no
StaticMapEntity component; such events are silently ignored. -/
theorem c10_uninitialized_or_no_static_ignored (s : GameState) (e : Entity)
    (h : s.gameInitialized = false ∨ e.components.StaticMapEntity = none) :
    checkForCacheInvalidation s e = s := by
  unfold checkForCacheInvalidation
  rcases h with h | h
  · simp [h]
  · cases hg : s.gameInitialized
    · simp [hg]
    · simp [hg, h]

/-- Witness for C10 at a concrete uninitialized state. -/
theorem c10_witness :
    (GameState.mk [c6Entity] [(⟨0, 0⟩, 0)] [0] none false).gameInitialized = false ∧
    checkForCacheInvalidation (GameState.mk [c6Entity] [(⟨0, 0⟩, 0)] [0] none false) c6Entity
      = GameState.mk [c6Entity] [(⟨0, 0⟩, 0)] [0] none false :=
  ⟨rfl, c10_uninitialized_or_no_static_ignored _ _ (Or.inl rfl)⟩

/-! Claim C8. -/

/-- C8: tryPassOverItem on a receiver whose Belt capability has no assigned
transport path aborts loudly with the assertion message "belt has no path"
(a fatal precondition failure) rather than silently skipping the belt
capability. -/
theorem c8_missing_belt_path_asserts (item : Item) (receiver : Entity)
    (slotIndex : Nat) (speed : Rat) (beltComp : BeltComponent)
    (hb : receiver.components.Belt = some beltComp)
    (hp : beltComp.assignedPath = none) :
    tryPassOverItem item receiver slotIndex speed = Except.error "belt has no path" := by
  unfold tryPassOverItem
  rw [hb]
  dsimp only
  rw [hp]

/-- Witness for C8 at a concrete receiver whose belt has no path. -/
theorem c8_witness :
    c8Receiver.components.Belt = some ⟨none⟩ ∧
    tryPassOverItem 0 c8Receiver 0 1 = Except.error "belt has no path" :=
  ⟨rfl, c8_missing_belt_path_asserts 0 c8Receiver 0 1 ⟨none⟩ rfl rfl⟩

/-! Claim C5. -/

theorem tryPassOverItemEnergy_eq (item : Item) (receiver : Entity) :
    tryPassOverItemEnergy item receiver = energyHandoverAccepts receiver item := rfl

theorem tryPassOverItemUnderground_eq (item : Item) (receiver : Entity) (speed : Rat) :
    tryPassOverItemUnderground item receiver speed
      = (undergroundHandoverAccepts receiver item speed || energyHandoverAccepts receiver item) := by
  unfold tryPassOverItemUnderground undergroundHandoverAccepts
  cases receiver.components.UndergroundBelt with
  | none => simp [tryPassOverItemEnergy_eq]
  | some c =>
      cases h : c.tryAcceptExternalItem item speed <;>
        simp [h, tryPassOverItemEnergy_eq]

theorem tryPassOverItemProcessor_eq (item : Item) (receiver : Entity) (slotIndex : Nat)
    (speed : Rat) :
    tryPassOverItemProcessor item receiver slotIndex speed
      = (processorHandoverAccepts receiver item slotIndex
          || (undergroundHandoverAccepts receiver item speed
          || energyHandoverAccepts receiver item)) := by
  unfold tryPassOverItemProcessor processorHandoverAccepts
  cases receiver.components.ItemProcessor with
  | none => simp [tryPassOverItemUnderground_eq]
  | some c =>
      cases h : c.tryTakeItem item slotIndex <;>
        simp [h, tryPassOverItemUnderground_eq]

theorem tryPassOverItemStorage_eq (item : Item) (receiver : Entity) (slotIndex : Nat)
    (speed : Rat) :
    tryPassOverItemStorage item receiver slotIndex speed
      = (storageHandoverAccepts receiver item
          || (processorHandoverAccepts receiver item slotIndex
          || (undergroundHandoverAccepts receiver item speed
          || energyHandoverAccepts receiver item))) := by
  unfold tryPassOverItemStorage storageHandoverAccepts
  cases receiver.components.Storage with
  | none => simp [tryPassOverItemProcessor_eq]
  | some c =>
      cases h : c.canAcceptItem item <;>
        simp [h, tryPassOverItemProcessor_eq]

/-- C5: tryPassOverItem tries the receiver's capabilities in the fixed
priority order belt path, storage, item processor, underground belt (fed
the externally supplied transport speed), energy generator; it returns
true as soon as one accepts and returns false — as an ok value, a normal
retryable outcome, not an error — when none of the present capabilities
accept, provided the belt invariant (assigned path present) holds. -/
theorem c5_handover_priority_order (item : Item) (receiver : Entity)
    (slotIndex : Nat) (speed : Rat)
    (hbelt : ∀ beltComp, receiver.components.Belt = some beltComp →
      beltComp.assignedPath.isSome) :
    tryPassOverItem item receiver slotIndex speed
      = Except.ok (beltHandoverAccepts receiver item
          || (storageHandoverAccepts receiver item
          || (processorHandoverAccepts receiver item slotIndex
          || (undergroundHandoverAccepts receiver item speed
          || energyHandoverAccepts receiver item)))) := by
  unfold tryPassOverItem beltHandoverAccepts
  cases hB : receiver.components.Belt with
  | none => simp [tryPassOverItemStorage_eq]
  | some beltComp =>
      obtain ⟨path, hp⟩ := Option.isSome_iff_exists.mp (hbelt beltComp hB)
      dsimp only
      rw [hp]
      dsimp only
      cases h : path.tryAcceptItem item <;>
        simp [h, tryPassOverItemStorage_eq]

/-- Witness for C5 at a concrete beltless receiver with accepting storage. -/
theorem c5_witness :
    (∀ beltComp, c5Receiver.components.Belt = some beltComp → beltComp.assignedPath.isSome) ∧
    tryPassOverItem 3 c5Receiver 0 1
      = Except.ok (beltHandoverAccepts c5Receiver 3
          || (storageHandoverAccepts c5Receiver 3
          || (processorHandoverAccepts c5Receiver 3 0
          || (undergroundHandoverAccepts c5Receiver 3 1
          || energyHandoverAccepts c5Receiver 3)))) :=
  ⟨fun _ h => Option.noConfusion h,
    c5_handover_priority_order 3 c5Receiver 0 1 (fun _ h => Option.noConfusion h)⟩

/-! Claim C6. -/

/-- C6 counterexample: recomputing the cache of an ejector entity with one
slot and zero connections yields a state equal to the never-computed one —
cachedConnectedSlots is JS null again, exactly the "not yet computed"
representation, so the state "computed with zero connections" is not
distinguishable from "not yet computed", contrary to the claim. -/
theorem c6_counterexample : recomputeSingleEntityCache c6State 0 = c6State := rfl

/-- C6 amended: the cache field is two-state, not tri-state: after
recomputeSingleEntityCache the entity's cachedConnectedSlots is either JS
null — the same value that means "not yet computed" — or a nonempty list;
it is never an empty list, so "computed with zero slots or zero connected
slots" is represented by null and cannot be told apart from "needs
recompute". -/
theorem c6_amended_two_state (s : GameState) (uid : Nat)
    (e : Entity) (c : ItemEjectorComponent) (e1 : Entity) (c1 : ItemEjectorComponent)
    (he : getObject s.objects uid = some e)
    (hc : e.components.ItemEjector = some c)
    (h1 : getObject (recomputeSingleEntityCache s uid).objects uid = some e1)
    (hc1 : e1.components.ItemEjector = some c1) :
    c1.cachedConnectedSlots ≠ some [] := by
  cases hst : e.components.StaticMapEntity with
  | none =>
      rw [recomputeSingle_write_nostatic s uid e c he hc hst] at h1
      dsimp only at h1
      rw [getObject_set_ejector_self, he] at h1
      injection h1 with h1
      rw [← h1] at hc1
      injection hc1 with hc1
      rw [← hc1]
      simp
  | some st =>
      rw [recomputeSingle_objects_self s uid e c st he hc hst] at h1
      injection h1 with h1
      rw [← h1] at hc1
      injection hc1 with hc1
      rw [← hc1]
      dsimp only
      rw [← computeSlots_snd s st c.slots 0 none]
      exact computeSlots_snd_ne_nil s st c.slots 0 none (by simp)

/-- Witness for C6's amended theorem at the concrete dead-end world. -/
theorem c6_amended_witness :
    getObject c6State.objects 0 = some c6Entity ∧
    c6Entity.components.ItemEjector = some ⟨[c6Slot], none⟩ ∧
    getObject (recomputeSingleEntityCache c6State 0).objects 0 = some c6Entity ∧
    (⟨[c6Slot], none⟩ : ItemEjectorComponent).cachedConnectedSlots ≠ some [] :=
  ⟨rfl, rfl, rfl,
    c6_amended_two_state c6State 0 c6Entity ⟨[c6Slot], none⟩ c6Entity ⟨[c6Slot], none⟩
      rfl rfl rfl rfl⟩

/-! Claim C4. -/

/-- C4: recomputeSingleEntityCache clears the entity's cache and, slot by
slot, resolves the target tile as the slot's world position plus the unit
vector of its world ejection direction; a missing occupant, a missing
acceptor component, or a failed findMatchingSlot query (called with tile
and direction transformed into the target's local space) leaves the slot's
cache fields cleared with no error, while a match sets the slot's cached
target entity and destination slot and appends the slot to
cachedConnectedSlots; other entities and the rest of the state are
untouched. -/
theorem c4_recompute_single_entity (s : GameState) (uid : Nat) (e : Entity)
    (comp : ItemEjectorComponent) (st : StaticMapEntityComponent)
    (he : getObject s.objects uid = some e)
    (hc : e.components.ItemEjector = some comp)
    (hst : e.components.StaticMapEntity = some st) :
    (∀ sl : EjectorSlot, resolveSlot s st sl
      = (match s.getTileContent ((st.localTileToWorld sl.pos).add
            (enumDirectionToVector (st.localDirectionToWorld sl.direction))) with
        | none => none
        | some targetEntity =>
            match targetEntity.components.ItemAcceptor,
                targetEntity.components.StaticMapEntity with
            | some acc, some tst =>
                match acc.findMatchingSlot
                    (tst.worldToLocalTile ((st.localTileToWorld sl.pos).add
                      (enumDirectionToVector (st.localDirectionToWorld sl.direction))))
                    (tst.worldDirectionToLocal (st.localDirectionToWorld sl.direction)) with
                | none => none
                | some m => some (targetEntity.uid, m)
            | _, _ => none))
    ∧ getObject (recomputeSingleEntityCache s uid).objects uid
        = some (setEntityEjector
            ⟨comp.slots.map (recomputedSlot s st),
              if hitIdxs s st comp.slots 0 = [] then none
              else some (hitIdxs s st comp.slots 0)⟩ e)
    ∧ (∀ v, v ≠ uid →
        getObject (recomputeSingleEntityCache s uid).objects v = getObject s.objects v)
    ∧ (recomputeSingleEntityCache s uid).map = s.map
    ∧ (recomputeSingleEntityCache s uid).areaToRecompute = s.areaToRecompute := by
  refine ⟨fun sl => rfl, ?_, ?_, ?_, ?_⟩
  · rw [recomputeSingle_objects_self s uid e comp st he hc hst]
    rfl
  · intro v hv
    exact recomputeSingle_objects_ne s uid v hv
  · exact recomputeSingle_map s uid
  · exact recomputeSingle_area s uid

/-- Witness for C4 at the concrete dead-end world (hypotheses hold there;
the map-preservation conclusion is taken from the theorem). -/
theorem c4_witness :
    getObject c6State.objects 0 = some c6Entity ∧
    c6Entity.components.ItemEjector = some ⟨[c6Slot], none⟩ ∧
    c6Entity.components.StaticMapEntity = some (mkStatic ⟨0, 0, 1, 1⟩) ∧
    (recomputeSingleEntityCache c6State 0).map = c6State.map :=
  ⟨rfl, rfl, rfl,
    (c4_recompute_single_entity c6State 0 c6Entity ⟨[c6Slot], none⟩ (mkStatic ⟨0, 0, 1, 1⟩)
      rfl rfl rfl).2.2.2.1⟩

/-! Claim C7. -/

theorem Rectangle.containsRect_refl (r : Rectangle) : r.containsRect r := by
  unfold Rectangle.containsRect
  omega

theorem Rectangle.containsRect_trans {a b c : Rectangle}
    (h1 : a.containsRect b) (h2 : b.containsRect c) : a.containsRect c := by
  unfold Rectangle.containsRect at *
  unfold Rectangle.right Rectangle.bottom at *
  omega

theorem Rectangle.getUnion_left (r o : Rectangle) : (r.getUnion o).containsRect r := by
  unfold Rectangle.getUnion Rectangle.containsRect Rectangle.right Rectangle.bottom
  dsimp only
  omega

theorem Rectangle.getUnion_right (r o : Rectangle) : (r.getUnion o).containsRect o := by
  unfold Rectangle.getUnion Rectangle.containsRect Rectangle.right Rectangle.bottom
  dsimp only
  omega

theorem Rectangle.containsRect_containsPoint {a b : Rectangle}
    (h : a.containsRect b) {p : Vector} (hp : b.containsPoint p) : a.containsPoint p := by
  unfold Rectangle.containsRect Rectangle.containsPoint Rectangle.right Rectangle.bottom at *
  omega

theorem checkInvalidation_active (s : GameState) (e : Entity)
    (st : StaticMapEntityComponent)
    (hg : s.gameInitialized = true) (hst : e.components.StaticMapEntity = some st) :
    checkForCacheInvalidation s e
      = { s with
          areaToRecompute :=
            some (match s.areaToRecompute with
              | some area => area.getUnion (st.getTileSpaceBounds.expandedInAllDirections 2)
              | none => st.getTileSpaceBounds.expandedInAllDirections 2) } := by
  unfold checkForCacheInvalidation
  rw [hg, hst]
  cases harea : s.areaToRecompute <;> rfl

theorem notifyAll_covers (es : List Entity) (s : GameState)
    (hg : s.gameInitialized = true)
    (hst : ∀ e ∈ es, e.components.StaticMapEntity.isSome)
    (hne : es ≠ [] ∨ s.areaToRecompute.isSome) :
    ∃ R : Rectangle, (notifyAll s es).areaToRecompute = some R
      ∧ (∀ e ∈ es, ∀ st, e.components.StaticMapEntity = some st →
          R.containsRect (st.getTileSpaceBounds.expandedInAllDirections 2))
      ∧ (∀ a, s.areaToRecompute = some a → R.containsRect a) := by
  induction es generalizing s with
  | nil =>
      rcases hne with hne | hne
      · exact absurd rfl hne
      · obtain ⟨a, ha⟩ := Option.isSome_iff_exists.mp hne
        refine ⟨a, ha, by simp, fun b hb => ?_⟩
        rw [hb] at ha
        injection ha with ha
        rw [ha]
        exact Rectangle.containsRect_refl _
  | cons e rest ih =>
      have hse := hst e (List.mem_cons_self e rest)
      obtain ⟨st, hstE⟩ := Option.isSome_iff_exists.mp hse
      have hchar := checkInvalidation_active s e st hg hstE
      have hg2 : (checkForCacheInvalidation s e).gameInitialized = true := by
        rw [hchar]
        exact hg
      have harea2 : (checkForCacheInvalidation s e).areaToRecompute
          = some (match s.areaToRecompute with
              | some area => area.getUnion (st.getTileSpaceBounds.expandedInAllDirections 2)
              | none => st.getTileSpaceBounds.expandedInAllDirections 2) := by
        rw [hchar]
      obtain ⟨R, hR, hRes, hRold⟩ := ih (checkForCacheInvalidation s e) hg2
        (fun x hx => hst x (List.mem_cons_of_mem e hx))
        (Or.inr (by rw [harea2]; rfl))
      have hRA := hRold _ harea2
      refine ⟨R, hR, ?_, ?_⟩
      · intro x hx st' hst'
        rcases List.mem_cons.mp hx with hxe | hxr
        · rw [hxe] at hst'
          rw [hstE] at hst'
          injection hst' with hst'
          rw [← hst']
          refine Rectangle.containsRect_trans hRA ?_
          cases harea : s.areaToRecompute with
          | none => exact Rectangle.containsRect_refl _
          | some a => exact Rectangle.getUnion_right _ _
        · exact hRes x hxr st' hst'
      · intro a ha
        refine Rectangle.containsRect_trans hRA ?_
        rw [ha]
        exact Rectangle.getUnion_left _ _

/-- C7: with the game initialized, every notification of an entity carrying
placement geometry computes the entity's tile-space bounds expanded by
exactly 2 tiles and merges them into the single pending rectangle; after
any sequence of such notifications the pending area is one rectangle that
contains (as an over-approximation) every notified entity's expanded
bounding box — rectangle- and point-wise — and the previously pending
area. -/
theorem c7_invalidation_merges_expanded_bounds :
    (∀ (s : GameState) (e : Entity) (st : StaticMapEntityComponent),
      s.gameInitialized = true → e.components.StaticMapEntity = some st →
      checkForCacheInvalidation s e
        = { s with
            areaToRecompute :=
              some (match s.areaToRecompute with
                | some area => area.getUnion (st.getTileSpaceBounds.expandedInAllDirections 2)
                | none => st.getTileSpaceBounds.expandedInAllDirections 2) })
    ∧ (∀ (s : GameState) (es : List Entity),
      s.gameInitialized = true →
      (∀ e ∈ es, e.components.StaticMapEntity.isSome) →
      es ≠ [] ∨ s.areaToRecompute.isSome →
      ∃ R : Rectangle, (notifyAll s es).areaToRecompute = some R
        ∧ (∀ e ∈ es, ∀ st, e.components.StaticMapEntity = some st →
            R.containsRect (st.getTileSpaceBounds.expandedInAllDirections 2)
            ∧ ∀ p, (st.getTileSpaceBounds.expandedInAllDirections 2).containsPoint p →
                R.containsPoint p)
        ∧ (∀ a, s.areaToRecompute = some a → R.containsRect a)) := by
  refine ⟨checkInvalidation_active, ?_⟩
  intro s es hg hst hne
  obtain ⟨R, h1, h2, h3⟩ := notifyAll_covers es s hg hst hne
  exact ⟨R, h1,
    fun e he st hstE =>
      ⟨h2 e he st hstE,
        fun p hp => Rectangle.containsRect_containsPoint (h2 e he st hstE) hp⟩,
    h3⟩

/-- Witness for C7: one concrete notification on the dead-end world merges
exactly the 2-expanded bounds into the empty pending area. -/
theorem c7_witness :
    c6State.gameInitialized = true ∧
    c6Entity.components.StaticMapEntity = some (mkStatic ⟨0, 0, 1, 1⟩) ∧
    checkForCacheInvalidation c6State c6Entity
      = { c6State with
          areaToRecompute :=
            some ((mkStatic ⟨0, 0, 1, 1⟩).getTileSpaceBounds.expandedInAllDirections 2) } :=
  ⟨rfl, rfl, by
    have h := c7_invalidation_merges_expanded_bounds.1 c6State c6Entity
      (mkStatic ⟨0, 0, 1, 1⟩) rfl rfl
    exact h⟩

/-! Claim C9: strip views and congruence of the recompute pass. -/

theorem stripSlot_recomputedSlot (s : GameState) (st : StaticMapEntityComponent)
    (sl : EjectorSlot) : stripSlot (recomputedSlot s st sl) = stripSlot sl := by
  unfold recomputedSlot stripSlot
  cases resolveSlot s st sl with
  | none => rfl
  | some pr =>
      obtain ⟨tu, m⟩ := pr
      rfl

theorem stripEntity_uid (e : Entity) : (stripEntity e).uid = e.uid := by
  unfold stripEntity
  cases e.components.ItemEjector <;> rfl

theorem stripEntity_acceptor (e : Entity) :
    (stripEntity e).components.ItemAcceptor = e.components.ItemAcceptor := by
  unfold stripEntity
  cases e.components.ItemEjector <;> rfl

theorem stripEntity_static (e : Entity) :
    (stripEntity e).components.StaticMapEntity = e.components.StaticMapEntity := by
  unfold stripEntity
  cases e.components.ItemEjector <;> rfl

theorem stripEntity_ejector_isSome (e : Entity) :
    (stripEntity e).components.ItemEjector.isSome = e.components.ItemEjector.isSome := by
  unfold stripEntity
  cases hc : e.components.ItemEjector with
  | none =>
      dsimp only
      rw [hc]
  | some c => rfl

theorem strip_eq_uid {e e' : Entity} (h : stripEntity e' = stripEntity e) :
    e'.uid = e.uid := by
  rw [← stripEntity_uid e', h, stripEntity_uid]

theorem strip_eq_acceptor {e e' : Entity} (h : stripEntity e' = stripEntity e) :
    e'.components.ItemAcceptor = e.components.ItemAcceptor := by
  rw [← stripEntity_acceptor e', h, stripEntity_acceptor]

theorem strip_eq_static {e e' : Entity} (h : stripEntity e' = stripEntity e) :
    e'.components.StaticMapEntity = e.components.StaticMapEntity := by
  rw [← stripEntity_static e', h, stripEntity_static]

theorem strip_eq_ejector_isSome {e e' : Entity} (h : stripEntity e' = stripEntity e) :
    e'.components.ItemEjector.isSome = e.components.ItemEjector.isSome := by
  rw [← stripEntity_ejector_isSome e', h, stripEntity_ejector_isSome]

theorem getObject_strip_congr (os os' : List Entity)
    (h : os'.map stripEntity = os.map stripEntity) (u : Nat) :
    (getObject os' u).map stripEntity = (getObject os u).map stripEntity := by
  unfold getObject
  have key : ∀ (l : List Entity),
      (l.map stripEntity).find? (fun e => decide (e.uid = u))
        = (l.find? (fun e => decide (e.uid = u))).map stripEntity := by
    intro l
    rw [List.find?_map]
    have hpred : ((fun e : Entity => decide (e.uid = u)) ∘ stripEntity)
        = fun e : Entity => decide (e.uid = u) := by
      funext o
      simp [Function.comp, stripEntity_uid]
    rw [hpred]
  rw [← key, ← key, h]

theorem getTileContent_strip (s s' : GameState) (hmap : s'.map = s.map)
    (hobj : s'.objects.map stripEntity = s.objects.map stripEntity) (t : Vector) :
    (s'.getTileContent t).map stripEntity = (s.getTileContent t).map stripEntity := by
  unfold GameState.getTileContent
  rw [hmap]
  cases s.map.find? (fun p => decide (p.1 = t)) with
  | none => rfl
  | some p => exact getObject_strip_congr s.objects s'.objects hobj p.2

theorem resolveSlot_congr (s s' : GameState) (hmap : s'.map = s.map)
    (hobj : s'.objects.map stripEntity = s.objects.map stripEntity)
    (st : StaticMapEntityComponent) (sl : EjectorSlot) :
    resolveSlot s' st sl = resolveSlot s st sl := by
  unfold resolveSlot
  dsimp only
  have hg := getTileContent_strip s s' hmap hobj
    ((st.localTileToWorld sl.pos).add
      (enumDirectionToVector (st.localDirectionToWorld sl.direction)))
  cases h1 : s.getTileContent
      ((st.localTileToWorld sl.pos).add
        (enumDirectionToVector (st.localDirectionToWorld sl.direction))) with
  | none =>
      rw [h1] at hg
      cases h2 : s'.getTileContent
          ((st.localTileToWorld sl.pos).add
            (enumDirectionToVector (st.localDirectionToWorld sl.direction))) with
      | none => rfl
      | some e' =>
          rw [h2] at hg
          simp at hg
  | some e =>
      rw [h1] at hg
      cases h2 : s'.getTileContent
          ((st.localTileToWorld sl.pos).add
            (enumDirectionToVector (st.localDirectionToWorld sl.direction))) with
      | none =>
          rw [h2] at hg
          simp at hg
      | some e' =>
          rw [h2] at hg
          simp only [Option.map_some', Option.some.injEq] at hg
          dsimp only
          rw [strip_eq_acceptor hg, strip_eq_static hg, strip_eq_uid hg]

theorem slot_update_eq_of_strip {sl sl' : EjectorSlot} (h : stripSlot sl' = stripSlot sl)
    (a : Option AcceptorSlotMatch) (b : Option Nat) :
    ({ sl' with cachedDestSlot := a, cachedTargetEntity := b } : EjectorSlot)
      = { sl with cachedDestSlot := a, cachedTargetEntity := b } := by
  cases sl
  cases sl'
  simp only [stripSlot] at h
  injection h with h1 h2 h3 h4 h5 h6
  subst h1
  subst h2
  subst h3
  subst h4
  rfl

theorem resolveSlot_stripSlot (s : GameState) (st : StaticMapEntityComponent)
    (sl : EjectorSlot) : resolveSlot s st (stripSlot sl) = resolveSlot s st sl := rfl

theorem resolveSlot_congr_slot (s : GameState) (st : StaticMapEntityComponent)
    {sl sl' : EjectorSlot} (h : stripSlot sl' = stripSlot sl) :
    resolveSlot s st sl' = resolveSlot s st sl := by
  rw [← resolveSlot_stripSlot s st sl', h, resolveSlot_stripSlot]

theorem computeSlots_congr (s s' : GameState) (hmap : s'.map = s.map)
    (hobj : s'.objects.map stripEntity = s.objects.map stripEntity)
    (st : StaticMapEntityComponent) :
    ∀ (slots' slots : List EjectorSlot),
      slots'.map stripSlot = slots.map stripSlot →
      ∀ (i : Nat) (conn : Option (List Nat)),
        computeSlots s' st slots' i conn = computeSlots s st slots i conn := by
  intro slots'
  induction slots' with
  | nil =>
      intro slots h i conn
      have hs : slots = [] := List.eq_nil_of_map_eq_nil h.symm
      rw [hs, computeSlots_nil, computeSlots_nil]
  | cons sl' rest' ih =>
      intro slots h i conn
      cases slots with
      | nil => simp at h
      | cons sl rest =>
          simp only [List.map_cons, List.cons.injEq] at h
          obtain ⟨h1, h2⟩ := h
          rw [computeSlots_cons, computeSlots_cons]
          have hres : resolveSlot s' st sl' = resolveSlot s st sl := by
            rw [resolveSlot_congr_slot s' st h1, resolveSlot_congr s s' hmap hobj]
          rw [hres]
          cases hr : resolveSlot s st sl with
          | none =>
              dsimp only
              rw [ih rest h2 (i + 1) conn, slot_update_eq_of_strip h1 none none]
          | some pr =>
              obtain ⟨tu, m⟩ := pr
              dsimp only
              rw [ih rest h2 (i + 1) _, slot_update_eq_of_strip h1 (some m) (some tu)]

theorem setEntityEjector_setEntityEjector (a b : ItemEjectorComponent) (e : Entity) :
    setEntityEjector a (setEntityEjector b e) = setEntityEjector a e := rfl

theorem applyRecompute_uid (s : GameState) (e : Entity) :
    (applyRecompute s e).uid = e.uid := by
  unfold applyRecompute
  cases e.components.ItemEjector with
  | none => rfl
  | some c => cases e.components.StaticMapEntity <;> rfl

theorem stripEntity_setEjector (e : Entity) (c0 c : ItemEjectorComponent)
    (hc : e.components.ItemEjector = some c0)
    (h : c.slots.map stripSlot = c0.slots.map stripSlot) :
    stripEntity (setEntityEjector c e) = stripEntity e := by
  unfold stripEntity
  rw [hc]
  rw [show (setEntityEjector c e).components.ItemEjector = some c from rfl]
  dsimp only
  rw [setEntityEjector_setEntityEjector, h]

theorem stripEntity_applyRecompute (s : GameState) (e : Entity) :
    stripEntity (applyRecompute s e) = stripEntity e := by
  unfold applyRecompute
  cases hc : e.components.ItemEjector with
  | none => rfl
  | some c =>
      cases hst : e.components.StaticMapEntity with
      | some st =>
          dsimp only
          apply stripEntity_setEjector e c _ hc
          rw [computeSlots_fst, List.map_map]
          exact List.map_congr_left
            (fun sl _ => by simp [Function.comp, stripSlot_recomputedSlot])
      | none =>
          dsimp only
          exact stripEntity_setEjector e c _ hc rfl

theorem gameState_eq_of_fields {s t : GameState}
    (h1 : s.objects = t.objects) (h2 : s.map = t.map)
    (h3 : s.allEntities = t.allEntities) (h4 : s.areaToRecompute = t.areaToRecompute)
    (h5 : s.gameInitialized = t.gameInitialized) : s = t := by
  cases s
  cases t
  simp_all

theorem applyWrites_objects (s : GameState) (us : List Nat) :
    (applyWrites s us).objects
      = s.objects.map (fun e => if us.contains e.uid then applyRecompute s e else e) := rfl

theorem applyWrites_map (s : GameState) (us : List Nat) :
    (applyWrites s us).map = s.map := rfl

theorem applyWrites_allEntities (s : GameState) (us : List Nat) :
    (applyWrites s us).allEntities = s.allEntities := rfl

theorem applyWrites_area (s : GameState) (us : List Nat) :
    (applyWrites s us).areaToRecompute = s.areaToRecompute := rfl

theorem applyWrites_gameInitialized (s : GameState) (us : List Nat) :
    (applyWrites s us).gameInitialized = s.gameInitialized := rfl

theorem applyWrites_nil (s : GameState) : applyWrites s [] = s := by
  refine gameState_eq_of_fields ?_ rfl rfl rfl rfl
  rw [applyWrites_objects]
  simp

theorem applyWrites_strip (s : GameState) (us : List Nat) :
    (applyWrites s us).objects.map stripEntity = s.objects.map stripEntity := by
  rw [applyWrites_objects, List.map_map]
  apply List.map_congr_left
  intro e he
  by_cases h : e.uid ∈ us <;> simp [Function.comp, h, stripEntity_applyRecompute]

theorem applyWrites_uids (s : GameState) (us : List Nat) :
    uidsOf (applyWrites s us).objects = uidsOf s.objects := by
  unfold uidsOf
  rw [applyWrites_objects, List.map_map]
  apply List.map_congr_left
  intro e he
  by_cases h : e.uid ∈ us <;> simp [Function.comp, h, applyRecompute_uid]

theorem getObject_applyWrites (s : GameState) (us : List Nat) (u : Nat) :
    getObject (applyWrites s us).objects u
      = if us.contains u then (getObject s.objects u).map (applyRecompute s)
        else getObject s.objects u := by
  rw [applyWrites_objects]
  unfold getObject
  rw [List.find?_map]
  have hp : ((fun e : Entity => decide (e.uid = u)) ∘ fun e =>
      if us.contains e.uid then applyRecompute s e else e)
      = fun e : Entity => decide (e.uid = u) := by
    funext o
    by_cases h : o.uid ∈ us <;> simp [Function.comp, h, applyRecompute_uid]
  rw [hp]
  cases hfind : s.objects.find? (fun e => decide (e.uid = u)) with
  | none => simp
  | some e =>
      have huid : e.uid = u := by simpa using List.find?_some hfind
      by_cases h : u ∈ us <;> simp [h, huid]

theorem getObject_of_mem_nodup {os : List Entity} (hnd : (uidsOf os).Nodup)
    {o : Entity} (ho : o ∈ os) : getObject os o.uid = some o := by
  induction os with
  | nil => cases ho
  | cons a rest ih =>
      have hnd' := List.nodup_cons.mp (show (a.uid :: uidsOf rest).Nodup from hnd)
      rcases List.mem_cons.mp ho with rfl | hmem
      · unfold getObject
        rw [List.find?_cons_of_pos _ (by simp)]
      · have hne : a.uid ≠ o.uid := by
          intro hEq
          apply hnd'.1
          rw [hEq]
          exact List.mem_map_of_mem (fun x : Entity => x.uid) hmem
        unfold getObject
        rw [List.find?_cons_of_neg _ (by simp [hne])]
        exact ih hnd'.2 hmem

theorem getTileContent_getObject (s : GameState) (t : Vector) (e : Entity)
    (h : s.getTileContent t = some e) : getObject s.objects e.uid = some e := by
  unfold GameState.getTileContent at h
  cases hf : s.map.find? (fun p => decide (p.1 = t)) with
  | none =>
      rw [hf] at h
      cases h
  | some p =>
      rw [hf] at h
      have huid := getObject_uid h
      rw [huid]
      exact h

theorem applyRecompute_of_none (s : GameState) (e : Entity)
    (hc : e.components.ItemEjector = none) : applyRecompute s e = e := by
  unfold applyRecompute
  rw [hc]

theorem applyRecompute_of_some (s : GameState) (e : Entity) (c : ItemEjectorComponent)
    (st : StaticMapEntityComponent) (hc : e.components.ItemEjector = some c)
    (hst : e.components.StaticMapEntity = some st) :
    applyRecompute s e = setEntityEjector
      (ItemEjectorComponent.mk ((computeSlots s st c.slots 0 none).1)
        ((computeSlots s st c.slots 0 none).2)) e := by
  unfold applyRecompute
  rw [hc, hst]

theorem applyRecompute_of_some_nostatic (s : GameState) (e : Entity)
    (c : ItemEjectorComponent) (hc : e.components.ItemEjector = some c)
    (hst : e.components.StaticMapEntity = none) :
    applyRecompute s e = setEntityEjector { c with cachedConnectedSlots := none } e := by
  unfold applyRecompute
  rw [hc, hst]

theorem computeSlots_fst_strip (s : GameState) (st : StaticMapEntityComponent)
    (slots : List EjectorSlot) :
    ((computeSlots s st slots 0 none).1).map stripSlot = slots.map stripSlot := by
  rw [computeSlots_fst, List.map_map]
  exact List.map_congr_left (fun sl _ => by simp [Function.comp, stripSlot_recomputedSlot])

theorem applyRecompute_congr (s s' : GameState) (hmap : s'.map = s.map)
    (hobj : s'.objects.map stripEntity = s.objects.map stripEntity) (e : Entity) :
    applyRecompute s' e = applyRecompute s e := by
  cases hc : e.components.ItemEjector with
  | none => rw [applyRecompute_of_none s' e hc, applyRecompute_of_none s e hc]
  | some c =>
      cases hst : e.components.StaticMapEntity with
      | none =>
          rw [applyRecompute_of_some_nostatic s' e c hc hst,
            applyRecompute_of_some_nostatic s e c hc hst]
      | some st =>
          rw [applyRecompute_of_some s' e c st hc hst,
            applyRecompute_of_some s e c st hc hst,
            computeSlots_congr s s' hmap hobj st c.slots c.slots rfl 0 none]

theorem applyRecompute_self_idem (s : GameState) (e : Entity) :
    applyRecompute s (applyRecompute s e) = applyRecompute s e := by
  cases hc : e.components.ItemEjector with
  | none =>
      rw [applyRecompute_of_none s e hc, applyRecompute_of_none s e hc]
  | some c =>
      cases hst : e.components.StaticMapEntity with
      | some st =>
          rw [applyRecompute_of_some s e c st hc hst]
          have h2 := applyRecompute_of_some s
            (setEntityEjector (ItemEjectorComponent.mk
              ((computeSlots s st c.slots 0 none).1)
              ((computeSlots s st c.slots 0 none).2)) e)
            (ItemEjectorComponent.mk ((computeSlots s st c.slots 0 none).1)
              ((computeSlots s st c.slots 0 none).2))
            st rfl hst
          rw [h2, setEntityEjector_setEntityEjector]
          have hx : computeSlots s st
                ((ItemEjectorComponent.mk ((computeSlots s st c.slots 0 none).1)
                  ((computeSlots s st c.slots 0 none).2)).slots) 0 none
              = computeSlots s st c.slots 0 none :=
            computeSlots_congr s s rfl rfl st _ c.slots (computeSlots_fst_strip s st c.slots)
              0 none
          rw [hx]
      | none =>
          rw [applyRecompute_of_some_nostatic s e c hc hst]
          have h2 := applyRecompute_of_some_nostatic s
            (setEntityEjector { c with cachedConnectedSlots := none } e)
            { c with cachedConnectedSlots := none } rfl hst
          rw [h2, setEntityEjector_setEntityEjector]

theorem applyWrites_idem (s : GameState) (us : List Nat) :
    applyWrites (applyWrites s us) us = applyWrites s us := by
  refine gameState_eq_of_fields ?_ rfl rfl rfl rfl
  rw [applyWrites_objects (applyWrites s us) us]
  have hfix : ∀ e1 ∈ (applyWrites s us).objects,
      (if us.contains e1.uid then applyRecompute (applyWrites s us) e1 else e1) = e1 := by
    intro e1 he1
    rw [applyWrites_objects] at he1
    obtain ⟨e, he, rfl⟩ := List.mem_map.mp he1
    by_cases hcb : us.contains e.uid = true
    · rw [if_pos hcb, applyRecompute_uid, if_pos hcb]
      rw [applyRecompute_congr s (applyWrites s us) (applyWrites_map s us)
        (applyWrites_strip s us)]
      exact applyRecompute_self_idem s e
    · rw [if_neg hcb, if_neg hcb]
  calc ((applyWrites s us).objects).map
        (fun e1 => if us.contains e1.uid then applyRecompute (applyWrites s us) e1 else e1)
      = ((applyWrites s us).objects).map id := List.map_congr_left hfix
    _ = (applyWrites s us).objects := List.map_id _

theorem visitFold_nil (s : GameState) (v : List Nat) : visitFold s v [] = v := rfl

theorem visitFold_cons (s : GameState) (v : List Nat) (t : Vector) (ts : List Vector) :
    visitFold s v (t :: ts) = visitFold s (visitStep s v t) ts := rfl

theorem visitStep_congr (s s' : GameState) (hmap : s'.map = s.map)
    (hobj : s'.objects.map stripEntity = s.objects.map stripEntity)
    (v : List Nat) (t : Vector) : visitStep s' v t = visitStep s v t := by
  unfold visitStep
  have hg := getTileContent_strip s s' hmap hobj t
  cases h1 : s.getTileContent t with
  | none =>
      rw [h1] at hg
      cases h2 : s'.getTileContent t with
      | none => rfl
      | some e' =>
          rw [h2] at hg
          simp at hg
  | some e =>
      rw [h1] at hg
      cases h2 : s'.getTileContent t with
      | none =>
          rw [h2] at hg
          simp at hg
      | some e' =>
          rw [h2] at hg
          simp only [Option.map_some', Option.some.injEq] at hg
          dsimp only
          rw [strip_eq_uid hg]
          have hej := strip_eq_ejector_isSome hg
          cases hc1 : e'.components.ItemEjector with
          | none =>
              cases hc2 : e.components.ItemEjector with
              | none => rfl
              | some c =>
                  rw [hc1, hc2] at hej
                  simp at hej
          | some c' =>
              cases hc2 : e.components.ItemEjector with
              | none =>
                  rw [hc1, hc2] at hej
                  simp at hej
              | some c => rfl

theorem visitFold_congr (s s' : GameState) (hmap : s'.map = s.map)
    (hobj : s'.objects.map stripEntity = s.objects.map stripEntity) :
    ∀ (ts : List Vector) (v : List Nat), visitFold s' v ts = visitFold s v ts := by
  intro ts
  induction ts with
  | nil => intro v; rfl
  | cons t ts ih =>
      intro v
      rw [visitFold_cons, visitFold_cons, visitStep_congr s s' hmap hobj v t, ih]

theorem visitStep_nodup (s : GameState) (v : List Nat) (t : Vector) (hv : v.Nodup) :
    (visitStep s v t).Nodup := by
  unfold visitStep
  cases s.getTileContent t with
  | none => exact hv
  | some e =>
      dsimp only
      by_cases hcb : v.contains e.uid = true
      · rw [if_pos hcb]
        exact hv
      · rw [if_neg hcb]
        cases e.components.ItemEjector with
        | none => exact hv
        | some c =>
            have hmem : e.uid ∉ v := by simpa using hcb
            simp [List.nodup_append, hv, hmem]

theorem recomputeSingle_applyWrites (s : GameState) (v : List Nat) (u : Nat)
    (hnd : (uidsOf s.objects).Nodup) (hu : u ∉ v) (e : Entity)
    (he : getObject s.objects u = some e) (c : ItemEjectorComponent)
    (hc : e.components.ItemEjector = some c) :
    recomputeSingleEntityCache (applyWrites s v) u = applyWrites s (v ++ [u]) := by
  have he' : getObject (applyWrites s v).objects u = some e := by
    rw [getObject_applyWrites, if_neg (by simpa using hu)]
    exact he
  have hwrite : ∀ (nc : ItemEjectorComponent),
      (∀ st, e.components.StaticMapEntity = some st →
        nc = ItemEjectorComponent.mk ((computeSlots s st c.slots 0 none).1)
          ((computeSlots s st c.slots 0 none).2)) →
      (e.components.StaticMapEntity = none → nc = { c with cachedConnectedSlots := none }) →
      mapObject (applyWrites s v).objects u (setEntityEjector nc)
        = (applyWrites s (v ++ [u])).objects := by
    intro nc hsome hnone
    rw [applyWrites_objects, applyWrites_objects]
    unfold mapObject
    rw [List.map_map]
    apply List.map_congr_left
    intro o ho
    simp only [Function.comp_apply]
    by_cases hou : o.uid = u
    · have hg := getObject_of_mem_nodup hnd ho
      rw [hou, he] at hg
      have hoe : o = e := (Option.some.inj hg).symm
      subst hoe
      have h_in : (if v.contains o.uid = true then applyRecompute s o else o) = o :=
        if_neg (by rw [hou]; simpa using hu)
      rw [h_in, if_pos hou,
        if_pos (show (v ++ [u]).contains o.uid = true by simp [hou])]
      cases hst : o.components.StaticMapEntity with
      | some st =>
          rw [hsome st hst, applyRecompute_of_some s o c st hc hst]
      | none =>
          rw [hnone hst, applyRecompute_of_some_nostatic s o c hc hst]
    · by_cases hov : v.contains o.uid = true
      · rw [if_pos hov,
          if_pos (show (v ++ [u]).contains o.uid = true by
            have hm : o.uid ∈ v := by simpa using hov
            simp [hm]),
          if_neg (show ¬((applyRecompute s o).uid = u) by
            simpa [applyRecompute_uid] using hou)]
      · rw [if_neg hov, if_neg hou,
          if_neg (show ¬((v ++ [u]).contains o.uid = true) by
            have hm : o.uid ∉ v := by simpa using hov
            simp [hm, hou])]
  cases hst : e.components.StaticMapEntity with
  | some st =>
      rw [recomputeSingle_write (applyWrites s v) u e c st he' hc hst]
      refine gameState_eq_of_fields ?_ rfl rfl rfl rfl
      have hcs : computeSlots (applyWrites s v) st c.slots 0 none
          = computeSlots s st c.slots 0 none :=
        computeSlots_congr s (applyWrites s v) (applyWrites_map s v)
          (applyWrites_strip s v) st c.slots c.slots rfl 0 none
      dsimp only
      rw [show (ItemEjectorComponent.mk
          (c.slots.map (recomputedSlot (applyWrites s v) st))
          (combineConn none (hitIdxs (applyWrites s v) st c.slots 0)))
          = ItemEjectorComponent.mk ((computeSlots (applyWrites s v) st c.slots 0 none).1)
            ((computeSlots (applyWrites s v) st c.slots 0 none).2) from by
        rw [computeSlots_fst, computeSlots_snd]]
      rw [hcs]
      exact hwrite _ (fun st' hst' => by rw [hst] at hst'; injection hst' with hst'; rw [hst'])
        (fun hn => by rw [hst] at hn; cases hn)
  | none =>
      rw [recomputeSingle_write_nostatic (applyWrites s v) u e c he' hc hst]
      refine gameState_eq_of_fields ?_ rfl rfl rfl rfl
      dsimp only
      exact hwrite _ (fun st' hst' => by rw [hst] at hst'; cases hst') (fun _ => rfl)

theorem recomputeAreaFold_abs (s : GameState) (hnd : (uidsOf s.objects).Nodup) :
    ∀ (ts : List Vector) (v : List Nat), v.Nodup →
      ts.foldl recomputeAreaStep (applyWrites s v, v)
        = (applyWrites s (visitFold s v ts), visitFold s v ts) := by
  intro ts
  induction ts with
  | nil =>
      intro v hv
      rfl
  | cons t ts ih =>
      intro v hv
      rw [List.foldl_cons]
      have hstep : recomputeAreaStep (applyWrites s v, v) t
          = (applyWrites s (visitStep s v t), visitStep s v t) := by
        unfold recomputeAreaStep visitStep
        dsimp only
        have hg := getTileContent_strip s (applyWrites s v) (applyWrites_map s v)
          (applyWrites_strip s v) t
        cases h1 : s.getTileContent t with
        | none =>
            rw [h1] at hg
            cases h2 : (applyWrites s v).getTileContent t with
            | none => rfl
            | some e' =>
                rw [h2] at hg
                simp at hg
        | some e =>
            rw [h1] at hg
            cases h2 : (applyWrites s v).getTileContent t with
            | none =>
                rw [h2] at hg
                simp at hg
            | some e' =>
                rw [h2] at hg
                simp only [Option.map_some', Option.some.injEq] at hg
                dsimp only
                rw [strip_eq_uid hg]
                by_cases hvu : v.contains e.uid
                · rw [if_pos hvu, if_pos hvu]
                · rw [if_neg hvu, if_neg hvu]
                  have hej := strip_eq_ejector_isSome hg
                  cases hc1 : e'.components.ItemEjector with
                  | none =>
                      cases hc2 : e.components.ItemEjector with
                      | none => rfl
                      | some c =>
                          rw [hc1, hc2] at hej
                          simp at hej
                  | some c' =>
                      cases hc2 : e.components.ItemEjector with
                      | none =>
                          rw [hc1, hc2] at hej
                          simp at hej
                      | some c =>
                          have he : getObject s.objects e.uid = some e :=
                            getTileContent_getObject s t e h1
                          rw [recomputeSingle_applyWrites s v e.uid hnd
                            (by simpa using hvu) e he c hc2]
      rw [hstep, visitFold_cons]
      exact ih (visitStep s v t) (visitStep_nodup s v t hv)

theorem recomputeAreaCache_abs (s : GameState) (area : Rectangle)
    (hnd : (uidsOf s.objects).Nodup) :
    recomputeAreaCache s area = applyWrites s (visitFold s [] area.tileList) := by
  unfold recomputeAreaCache
  rw [show (s, ([] : List Nat)) = (applyWrites s [], []) from by rw [applyWrites_nil]]
  rw [recomputeAreaFold_abs s hnd area.tileList [] List.nodup_nil]

/-- C9: recomputing the same region twice over an unchanged grid leaves
exactly the same state — cachedConnectedSlots and every slot's cached
target fields included — as recomputing it once: the area pass only
rewrites ejector caches, from inputs it never modifies. -/
theorem c9_recompute_area_idempotent (s : GameState) (area : Rectangle)
    (hnd : (uidsOf s.objects).Nodup) :
    recomputeAreaCache (recomputeAreaCache s area) area = recomputeAreaCache s area := by
  have h1 := recomputeAreaCache_abs s area hnd
  have hnd2 : (uidsOf (recomputeAreaCache s area).objects).Nodup := by
    rw [h1, applyWrites_uids]
    exact hnd
  have h2 := recomputeAreaCache_abs (recomputeAreaCache s area) area hnd2
  rw [h2, h1]
  rw [visitFold_congr s (applyWrites s (visitFold s [] area.tileList))
    (applyWrites_map s _) (applyWrites_strip s _) area.tileList []]
  exact applyWrites_idem s (visitFold s [] area.tileList)

/-- Witness for C9 at the concrete dead-end world and a small area. -/
theorem c9_witness :
    (uidsOf c6State.objects).Nodup ∧
    recomputeAreaCache (recomputeAreaCache c6State ⟨0, 0, 2, 1⟩) ⟨0, 0, 2, 1⟩
      = recomputeAreaCache c6State ⟨0, 0, 2, 1⟩ :=
  ⟨by decide, c9_recompute_area_idempotent c6State ⟨0, 0, 2, 1⟩ (by decide)⟩

/-! Claim C1: support lemmas. -/

theorem checkInvalidation_objects (s : GameState) (e : Entity) :
    (checkForCacheInvalidation s e).objects = s.objects := by
  unfold checkForCacheInvalidation
  split
  · rfl
  · split
    · rfl
    · split <;> rfl

theorem checkInvalidation_map (s : GameState) (e : Entity) :
    (checkForCacheInvalidation s e).map = s.map := by
  unfold checkForCacheInvalidation
  split
  · rfl
  · split
    · rfl
    · split <;> rfl

theorem checkInvalidation_allEntities (s : GameState) (e : Entity) :
    (checkForCacheInvalidation s e).allEntities = s.allEntities := by
  unfold checkForCacheInvalidation
  split
  · rfl
  · split
    · rfl
    · split <;> rfl

theorem checkInvalidation_gameInitialized (s : GameState) (e : Entity) :
    (checkForCacheInvalidation s e).gameInitialized = s.gameInitialized := by
  unfold checkForCacheInvalidation
  split
  · rfl
  · split
    · rfl
    · split <;> rfl

theorem applyEvent_add (s : GameState) (d : AddEvent) :
    applyEvent s (GameEvent.add d)
      = checkForCacheInvalidation
          { s with
              objects := s.objects ++ [d.entity]
              map := s.map ++ d.tiles.map (fun t => (t, d.entity.uid))
              allEntities :=
                if d.entity.components.ItemEjector.isSome then
                  s.allEntities ++ [d.entity.uid]
                else s.allEntities } d.entity := rfl

theorem applyEvent_destroy (s : GameState) (u : Nat) :
    applyEvent s (GameEvent.destroy u)
      = match getObject s.objects u with
        | none => s
        | some e =>
            checkForCacheInvalidation
              { s with
                  map := s.map.filter (fun p => !(decide (p.2 = u)))
                  allEntities := s.allEntities.filter (fun w => !(decide (w = u))) } e := rfl

theorem applyEvent_gameInitialized (s : GameState) (ev : GameEvent) :
    (applyEvent s ev).gameInitialized = s.gameInitialized := by
  cases ev with
  | add d => rw [applyEvent_add, checkInvalidation_gameInitialized]
  | destroy u =>
      rw [applyEvent_destroy]
      cases getObject s.objects u with
      | none => rfl
      | some e =>
          dsimp only
          rw [checkInvalidation_gameInitialized]

theorem applyEvents_gameInitialized (evs : List GameEvent) (s : GameState) :
    (applyEvents s evs).gameInitialized = s.gameInitialized := by
  induction evs generalizing s with
  | nil => rfl
  | cons ev evs ih =>
      show (applyEvents (applyEvent s ev) evs).gameInitialized = _
      rw [ih, applyEvent_gameInitialized]

theorem getObject_append_left {os : List Entity} {u : Nat} {e : Entity} (os2 : List Entity)
    (h : getObject os u = some e) : getObject (os ++ os2) u = some e := by
  unfold getObject at *
  rw [List.find?_append, h]
  rfl

theorem getObject_none_of_not_mem {os : List Entity} {u : Nat}
    (h : u ∉ uidsOf os) : getObject os u = none := by
  unfold getObject
  rw [List.find?_eq_none]
  intro x hx
  simp only [decide_eq_true_eq]
  intro hxu
  apply h
  rw [← hxu]
  exact List.mem_map_of_mem (fun y : Entity => y.uid) hx

theorem getObject_mem {os : List Entity} {u : Nat} {e : Entity}
    (h : getObject os u = some e) : e ∈ os := by
  unfold getObject at h
  exact List.mem_of_find?_eq_some h

theorem getObject_mem_uids {os : List Entity} {u : Nat} {e : Entity}
    (h : getObject os u = some e) : u ∈ uidsOf os := by
  rw [← getObject_uid h]
  exact List.mem_map_of_mem (fun y : Entity => y.uid) (getObject_mem h)

theorem getObject_append_fresh {os : List Entity} {u : Nat}
    (h : getObject os u = none) (os2 : List Entity) :
    getObject (os ++ os2) u = getObject os2 u := by
  unfold getObject at *
  rw [List.find?_append, h]
  rfl

theorem mem_tileList (r : Rectangle) (p : Vector) :
    p ∈ r.tileList ↔ r.containsPoint p := by
  obtain ⟨p1, p2⟩ := p
  unfold Rectangle.tileList Rectangle.containsPoint Rectangle.right Rectangle.bottom
  simp only [List.mem_flatMap, List.mem_map, List.mem_range, Vector.mk.injEq]
  constructor
  · rintro ⟨dx, hdx, dy, hdy, h1, h2⟩
    omega
  · intro h
    exact ⟨(p1 - r.x).toNat, by omega, (p2 - r.y).toNat, by omega, by omega, by omega⟩

theorem expanded_covers_source (b : Rectangle) (p : Vector) (d : Direction)
    (h : b.containsPoint (p.add (enumDirectionToVector d))) :
    (b.expandedInAllDirections 2).containsPoint p := by
  unfold Rectangle.containsPoint Rectangle.expandedInAllDirections Rectangle.right
    Rectangle.bottom Vector.add enumDirectionToVector at *
  cases d <;> (dsimp only at h ⊢; omega)

theorem find?_key_none (m : List (Vector × Nat)) (t : Vector)
    (h : t ∉ m.map Prod.fst) : m.find? (fun p => decide (p.1 = t)) = none := by
  rw [List.find?_eq_none]
  intro x hx
  simp only [decide_eq_true_eq]
  intro hxt
  exact h (hxt ▸ List.mem_map_of_mem Prod.fst hx)

theorem find?_key_of_mem {m : List (Vector × Nat)} (hk : (m.map Prod.fst).Nodup)
    {t : Vector} {u : Nat} (h : (t, u) ∈ m) :
    m.find? (fun p => decide (p.1 = t)) = some (t, u) := by
  induction m with
  | nil => cases h
  | cons p0 rest ih =>
      have hk' := List.nodup_cons.mp (show (p0.1 :: rest.map Prod.fst).Nodup from hk)
      rcases List.mem_cons.mp h with rfl | hmem
      · exact List.find?_cons_of_pos _ (by simp)
      · have hne : p0.1 ≠ t := by
          intro hEq
          apply hk'.1
          rw [hEq]
          exact List.mem_map_of_mem Prod.fst hmem
        rw [List.find?_cons_of_neg _ (by simp [hne])]
        exact ih hk'.2 hmem

theorem getTileContent_of_mem (s : GameState) (hk : (s.map.map Prod.fst).Nodup)
    {t : Vector} {u : Nat} (h : (t, u) ∈ s.map) {e : Entity}
    (he : getObject s.objects u = some e) : s.getTileContent t = some e := by
  unfold GameState.getTileContent
  rw [find?_key_of_mem hk h]
  exact he

theorem coherentB_facts {s : GameState} (h : coherentB s = true) : CoherentFacts s := by
  unfold coherentB at h
  simp only [Bool.and_eq_true, decide_eq_true_eq, List.all_eq_true] at h
  obtain ⟨⟨⟨⟨⟨h1, h2⟩, h3⟩, h4⟩, h5⟩, h6⟩ := h
  refine ⟨h1, h2, h3, ?_, ?_, ?_⟩
  · intro p hp
    have hx := h4 p hp
    cases hg : getObject s.objects p.2 with
    | none =>
        simp only [hg] at hx
        exact absurd hx (by decide)
    | some e =>
        cases hst : e.components.StaticMapEntity with
        | none =>
            simp only [hg, hst] at hx
            exact absurd hx (by decide)
        | some st =>
            simp only [hg, hst, decide_eq_true_eq] at hx
            exact ⟨e, st, rfl, hst, hx⟩
  · intro u hu
    have hx := h5 u hu
    cases hg : getObject s.objects u with
    | none =>
        simp only [hg] at hx
        exact absurd hx (by decide)
    | some e =>
        cases hc : e.components.ItemEjector with
        | none =>
            simp only [hg, hc] at hx
            exact absurd hx (by decide)
        | some c =>
            cases hst : e.components.StaticMapEntity with
            | none =>
                simp only [hg, hc, hst] at hx
                exact absurd hx (by decide)
            | some st =>
                simp only [hg, hc, hst, List.all_eq_true, decide_eq_true_eq] at hx
                exact ⟨e, c, st, rfl, hc, hst, hx⟩
  · intro p hp e hge hej
    have hx := h6 p hp
    simp only [hge, hej, Bool.not_true, Bool.false_or, decide_eq_true_eq] at hx
    exact hx

theorem setEntityEjector_self {e : Entity} {c : ItemEjectorComponent}
    (hc : e.components.ItemEjector = some c) : setEntityEjector c e = e := by
  cases e with
  | mk u cs =>
      cases cs
      unfold setEntityEjector
      dsimp only at hc ⊢
      rw [hc]

theorem recomputedSlot_eq_of_pair (s : GameState) (st : StaticMapEntityComponent)
    (sl : EjectorSlot)
    (h : ((recomputedSlot s st sl).cachedDestSlot, (recomputedSlot s st sl).cachedTargetEntity)
        = (sl.cachedDestSlot, sl.cachedTargetEntity)) :
    recomputedSlot s st sl = sl := by
  unfold recomputedSlot at *
  cases hr : resolveSlot s st sl with
  | none =>
      rw [hr] at h
      obtain ⟨sp, sd, si, spr, scd, sct⟩ := sl
      simp only [Prod.mk.injEq] at h
      simp only [EjectorSlot.mk.injEq]
      simp_all
  | some pr =>
      obtain ⟨tu, m⟩ := pr
      rw [hr] at h
      obtain ⟨sp, sd, si, spr, scd, sct⟩ := sl
      simp only [Prod.mk.injEq] at h
      simp only [EjectorSlot.mk.injEq]
      simp_all

theorem comp_eq_of_cacheData (s : GameState) (st : StaticMapEntityComponent)
    (c : ItemEjectorComponent)
    (hx : ejCacheData c = ejCacheData (ItemEjectorComponent.mk
        ((computeSlots s st c.slots 0 none).1) ((computeSlots s st c.slots 0 none).2))) :
    ItemEjectorComponent.mk ((computeSlots s st c.slots 0 none).1)
      ((computeSlots s st c.slots 0 none).2) = c := by
  unfold ejCacheData at hx
  rw [Prod.mk.injEq] at hx
  obtain ⟨h1, h2⟩ := hx
  dsimp only at h1 h2
  have hs : (computeSlots s st c.slots 0 none).1 = c.slots := by
    rw [computeSlots_fst] at h2 ⊢
    rw [List.map_map] at h2
    have h3 := List.map_inj_left.mp h2.symm
    have h4 : ∀ sl ∈ c.slots, recomputedSlot s st sl = sl := by
      intro sl hsl
      apply recomputedSlot_eq_of_pair
      have := h3 sl hsl
      simpa [Function.comp] using this
    calc c.slots.map (recomputedSlot s st)
        = c.slots.map id := List.map_congr_left h4
      _ = c.slots := List.map_id _
  cases c with
  | mk slots conn =>
      dsimp only at h1 hs ⊢
      rw [ItemEjectorComponent.mk.injEq]
      exact ⟨hs, h1.symm⟩

theorem cacheCorrectB_applyRecompute {s : GameState} (h : cacheCorrectB s = true)
    {u : Nat} (hu : u ∈ s.allEntities) {e : Entity}
    (he : getObject s.objects u = some e) : applyRecompute s e = e := by
  unfold cacheCorrectB at h
  rw [List.all_eq_true] at h
  have hx := h u hu
  cases hc : e.components.ItemEjector with
  | none => exact applyRecompute_of_none s e hc
  | some c =>
      cases hst : e.components.StaticMapEntity with
      | some st =>
          simp only [he, hc, hst, decide_eq_true_eq] at hx
          rw [applyRecompute_of_some s e c st hc hst, comp_eq_of_cacheData s st c hx]
          exact setEntityEjector_self hc
      | none =>
          simp only [he, hc, hst, decide_eq_true_eq] at hx
          rw [applyRecompute_of_some_nostatic s e c hc hst]
          have hcc : ({ c with cachedConnectedSlots := none } : ItemEjectorComponent) = c := by
            cases c with
            | mk slots conn =>
                dsimp only at hx
                rw [hx]
          rw [hcc]
          exact setEntityEjector_self hc

theorem eventOK_add_facts {s : GameState} {d : AddEvent}
    (h : eventOK s (GameEvent.add d) = true) :
    ∃ st, d.entity.components.StaticMapEntity = some st
      ∧ d.tiles.Nodup
      ∧ d.entity.uid ∉ uidsOf s.objects
      ∧ (∀ t ∈ d.tiles, t ∉ s.map.map Prod.fst ∧ st.getTileSpaceBounds.containsPoint t)
      ∧ (∀ c, d.entity.components.ItemEjector = some c →
          c.cachedConnectedSlots = none
          ∧ ∀ sl ∈ c.slots, sl.cachedDestSlot = none ∧ sl.cachedTargetEntity = none
              ∧ st.localTileToWorld sl.pos ∈ d.tiles) := by
  unfold eventOK at h
  dsimp only at h
  cases hst : d.entity.components.StaticMapEntity with
  | none =>
      rw [hst] at h
      dsimp only at h
      exact absurd h (by decide)
  | some st =>
      rw [hst] at h
      simp only [Bool.and_eq_true, decide_eq_true_eq, List.all_eq_true,
        Bool.not_eq_true', decide_eq_false_iff_not] at h
      obtain ⟨⟨⟨hnd, hfresh⟩, htiles⟩, hej⟩ := h
      refine ⟨st, rfl, hnd, hfresh, ?_, ?_⟩
      · intro t ht
        obtain ⟨h1, h2⟩ := htiles t ht
        exact ⟨h1, h2⟩
      · intro c hcEq
        rw [hcEq] at hej
        simp only [Bool.and_eq_true, decide_eq_true_eq, List.all_eq_true] at hej
        obtain ⟨hconn, hslots⟩ := hej
        refine ⟨hconn, ?_⟩
        intro sl hsl
        obtain ⟨⟨hd, htg⟩, hin⟩ := hslots sl hsl
        exact ⟨hd, htg, hin⟩

theorem eventOK_destroy_facts {s : GameState} {u : Nat}
    (h : eventOK s (GameEvent.destroy u) = true) :
    ∃ e st, getObject s.objects u = some e
      ∧ e.components.StaticMapEntity = some st := by
  unfold eventOK at h
  dsimp only at h
  cases hg : getObject s.objects u with
  | none =>
      rw [hg] at h
      dsimp only at h
      exact absurd h (by decide)
  | some e =>
      rw [hg] at h
      dsimp only at h
      obtain ⟨st, hst⟩ := Option.isSome_iff_exists.mp h
      exact ⟨e, st, rfl, hst⟩

theorem coherentFacts_of_parts {s t : GameState}
    (ho : t.objects = s.objects) (hm : t.map = s.map)
    (ha : t.allEntities = s.allEntities) (h : CoherentFacts s) : CoherentFacts t := by
  constructor
  · rw [ho]
    exact h.nodupUids
  · rw [ha]
    exact h.nodupAll
  · rw [hm]
    exact h.nodupKeys
  · rw [ho, hm]
    exact h.mapRes
  · rw [ho, hm, ha]
    exact h.allRes
  · rw [ho, hm, ha]
    exact h.tracked

theorem coherentFacts_invalidation {s : GameState} (h : CoherentFacts s) (e : Entity) :
    CoherentFacts (checkForCacheInvalidation s e) :=
  coherentFacts_of_parts (checkInvalidation_objects s e) (checkInvalidation_map s e)
    (checkInvalidation_allEntities s e) h

theorem getObject_singleton_self (e : Entity) : getObject [e] e.uid = some e := by
  unfold getObject
  rw [List.find?_cons_of_pos _ (by simp)]

theorem coherent_applyEvent {s : GameState} (hc : CoherentFacts s) {ev : GameEvent}
    (hok : eventOK s ev = true) : CoherentFacts (applyEvent s ev) := by
  cases ev with
  | add d =>
      obtain ⟨st, hst, hnd, hfresh, htiles, hej⟩ := eventOK_add_facts hok
      rw [applyEvent_add]
      apply coherentFacts_invalidation
      have hgetE : getObject (s.objects ++ [d.entity]) d.entity.uid = some d.entity := by
        rw [getObject_append_fresh (getObject_none_of_not_mem hfresh)]
        exact getObject_singleton_self d.entity
      constructor
      · show (uidsOf (s.objects ++ [d.entity])).Nodup
        unfold uidsOf
        rw [List.map_append]
        rw [List.nodup_append]
        refine ⟨hc.nodupUids, List.nodup_singleton _, ?_⟩
        intro x hx
        simp only [List.map_cons, List.map_nil, List.mem_singleton]
        intro hxe
        rw [hxe] at hx
        exact hfresh hx
      · show (if d.entity.components.ItemEjector.isSome then
            s.allEntities ++ [d.entity.uid] else s.allEntities).Nodup
        split
        · rw [List.nodup_append]
          refine ⟨hc.nodupAll, List.nodup_singleton _, ?_⟩
          intro x hx
          simp only [List.mem_singleton]
          intro hxe
          obtain ⟨e0, c0, st0, hge0, _, _, _⟩ := hc.allRes x hx
          apply hfresh
          rw [← hxe]
          exact getObject_mem_uids hge0
        · exact hc.nodupAll
      · show ((s.map ++ d.tiles.map (fun t => (t, d.entity.uid))).map Prod.fst).Nodup
        rw [List.map_append]
        have hsnd : (d.tiles.map (fun t => (t, d.entity.uid))).map Prod.fst = d.tiles := by
          rw [List.map_map]
          exact (List.map_congr_left fun a _ => rfl).trans (List.map_id _)
        rw [hsnd]
        rw [List.nodup_append]
        refine ⟨hc.nodupKeys, hnd, ?_⟩
        intro x hx hx2
        exact (htiles x hx2).1 hx
      · intro p hp
        rcases List.mem_append.mp hp with hold | hnew
        · obtain ⟨e, st0, hge, hst0, hbd⟩ := hc.mapRes p hold
          exact ⟨e, st0, getObject_append_left _ hge, hst0, hbd⟩
        · obtain ⟨t, ht, hpe⟩ := List.mem_map.mp hnew
          rw [← hpe]
          exact ⟨d.entity, st, hgetE, hst, (htiles t ht).2⟩
      · intro u hu
        by_cases hesome : d.entity.components.ItemEjector.isSome = true
        · rw [if_pos hesome] at hu
          rcases List.mem_append.mp hu with hold | hnewu
          · obtain ⟨e, c, st0, hge, hce, hst0, hsl⟩ := hc.allRes u hold
            refine ⟨e, c, st0, getObject_append_left _ hge, hce, hst0, ?_⟩
            intro sl hs
            exact List.mem_append_left _ (hsl sl hs)
          · rw [List.mem_singleton.mp hnewu]
            obtain ⟨c, hcE⟩ := Option.isSome_iff_exists.mp hesome
            obtain ⟨_, hslots⟩ := hej c hcE
            refine ⟨d.entity, c, st, hgetE, hcE, hst, ?_⟩
            intro sl hs
            apply List.mem_append_right
            exact List.mem_map_of_mem _ (hslots sl hs).2.2
        · rw [if_neg hesome] at hu
          obtain ⟨e, c, st0, hge, hce, hst0, hsl⟩ := hc.allRes u hu
          refine ⟨e, c, st0, getObject_append_left _ hge, hce, hst0, ?_⟩
          intro sl hs
          exact List.mem_append_left _ (hsl sl hs)
      · intro p hp e hge hej2
        rcases List.mem_append.mp hp with hold | hnew
        · obtain ⟨e0, st0, hge0, _, _⟩ := hc.mapRes p hold
          have he0 : e0 = e := by
            rw [getObject_append_left _ hge0] at hge
            exact Option.some.inj hge
          have htr := hc.tracked p hold e0 hge0 (by rw [he0]; exact hej2)
          split
          · exact List.mem_append_left _ htr
          · exact htr
        · obtain ⟨t, ht, hpe⟩ := List.mem_map.mp hnew
          have hpu : p.2 = d.entity.uid := by rw [← hpe]
          rw [hpu] at hge
          rw [hgetE] at hge
          have heE : d.entity = e := Option.some.inj hge
          rw [hpu]
          rw [if_pos (by rw [heE]; exact hej2)]
          exact List.mem_append_right _ (List.mem_singleton.mpr rfl)
  | destroy u =>
      obtain ⟨e, st, hge, hst⟩ := eventOK_destroy_facts hok
      rw [applyEvent_destroy, hge]
      dsimp only
      apply coherentFacts_invalidation
      constructor
      · exact hc.nodupUids
      · exact List.Nodup.filter _ hc.nodupAll
      · show (((s.map.filter (fun p => !(decide (p.2 = u)))).map Prod.fst)).Nodup
        exact List.Nodup.sublist (List.Sublist.map Prod.fst (List.filter_sublist s.map))
          hc.nodupKeys
      · intro p hp
        exact hc.mapRes p (List.mem_of_mem_filter hp)
      · intro w hw
        have hw' := List.mem_filter.mp hw
        have hwu : w ≠ u := by simpa using hw'.2
        obtain ⟨e0, c0, st0, hge0, hce0, hst0, hsl0⟩ := hc.allRes w hw'.1
        refine ⟨e0, c0, st0, hge0, hce0, hst0, ?_⟩
        intro sl hs
        rw [List.mem_filter]
        exact ⟨hsl0 sl hs, by simpa using hwu⟩
      · intro p hp e0 hge0 hej0
        have hp' := List.mem_filter.mp hp
        have hpu : p.2 ≠ u := by simpa using hp'.2
        have htr := hc.tracked p hp'.1 e0 hge0 hej0
        rw [List.mem_filter]
        exact ⟨htr, by simpa using hpu⟩

theorem applyEvents_cons (s : GameState) (ev : GameEvent) (evs : List GameEvent) :
    applyEvents s (ev :: evs) = applyEvents (applyEvent s ev) evs := rfl

theorem eventsOK_cons {s : GameState} {ev : GameEvent} {evs : List GameEvent}
    (h : eventsOK s (ev :: evs) = true) :
    eventOK s ev = true ∧ eventsOK (applyEvent s ev) evs = true := by
  unfold eventsOK at h
  simp only [Bool.and_eq_true] at h
  exact h

theorem coherent_applyEvents : ∀ (evs : List GameEvent) (s : GameState),
    CoherentFacts s → eventsOK s evs = true → CoherentFacts (applyEvents s evs) := by
  intro evs
  induction evs with
  | nil => intro s hc _; exact hc
  | cons ev evs ih =>
      intro s hc hok
      obtain ⟨h1, h2⟩ := eventsOK_cons hok
      rw [applyEvents_cons]
      exact ih (applyEvent s ev) (coherent_applyEvent hc h1) h2

theorem getTileContent_eq_of_parts {s t : GameState} (ho : t.objects = s.objects)
    (hm : t.map = s.map) (p : Vector) : t.getTileContent p = s.getTileContent p := by
  unfold GameState.getTileContent
  rw [ho, hm]

theorem checkInvalidation_getTileContent (s : GameState) (e : Entity) (p : Vector) :
    (checkForCacheInvalidation s e).getTileContent p = s.getTileContent p :=
  getTileContent_eq_of_parts (checkInvalidation_objects s e) (checkInvalidation_map s e) p

theorem objects_extend : ∀ (evs : List GameEvent) (s : GameState),
    ∃ rest, (applyEvents s evs).objects = s.objects ++ rest := by
  intro evs
  induction evs with
  | nil =>
      intro s
      exact ⟨[], by simp [applyEvents]⟩
  | cons ev evs ih =>
      intro s
      obtain ⟨rest, hrest⟩ := ih (applyEvent s ev)
      rw [applyEvents_cons]
      cases ev with
      | add d =>
          refine ⟨[d.entity] ++ rest, ?_⟩
          rw [hrest, applyEvent_add, checkInvalidation_objects]
          simp
      | destroy u =>
          refine ⟨rest, ?_⟩
          rw [hrest, applyEvent_destroy]
          cases getObject s.objects u with
          | none => rfl
          | some e =>
              dsimp only
              rw [checkInvalidation_objects]

theorem getObject_applyEvents_old {s : GameState} {u : Nat} {e : Entity}
    (h : getObject s.objects u = some e) (evs : List GameEvent) :
    getObject (applyEvents s evs).objects u = some e := by
  obtain ⟨rest, hrest⟩ := objects_extend evs s
  rw [hrest]
  exact getObject_append_left rest h

theorem find?_key_filter (m : List (Vector × Nat)) (q : Vector × Nat → Bool) (t : Vector)
    (hk : (m.map Prod.fst).Nodup) :
    (m.filter q).find? (fun p => decide (p.1 = t))
      = match m.find? (fun p => decide (p.1 = t)) with
        | none => none
        | some p => if q p then some p else none := by
  induction m with
  | nil => rfl
  | cons p0 rest ih =>
      have hk' := List.nodup_cons.mp (show (p0.1 :: rest.map Prod.fst).Nodup from hk)
      by_cases hp0 : p0.1 = t
      · rw [List.find?_cons_of_pos _ (by simp [hp0])]
        have hnone : rest.find? (fun p => decide (p.1 = t)) = none := by
          apply find?_key_none
          rw [← hp0]
          exact hk'.1
        have hnone2 : (rest.filter q).find? (fun p => decide (p.1 = t)) = none := by
          rw [List.find?_eq_none]
          intro x hx
          simp only [decide_eq_true_eq]
          intro hxt
          have hxr := List.mem_of_mem_filter hx
          have := List.find?_eq_none.mp hnone x hxr
          simp [hxt] at this
        by_cases hq : q p0 = true
        · rw [List.filter_cons_of_pos hq]
          dsimp only
          rw [if_pos hq, List.find?_cons_of_pos _ (by simp [hp0])]
        · rw [List.filter_cons_of_neg (by simpa using hq)]
          dsimp only
          rw [if_neg hq]
          exact hnone2
      · rw [List.find?_cons_of_neg _ (by simp [hp0])]
        by_cases hq : q p0 = true
        · rw [List.filter_cons_of_pos hq, List.find?_cons_of_neg _ (by simp [hp0])]
          exact ih hk'.2
        · rw [List.filter_cons_of_neg (by simpa using hq)]
          exact ih hk'.2

theorem expand2_covers_around {b : Rectangle} {t : Vector} (h : b.containsPoint t) :
    (b.expandedInAllDirections 2).containsRect ⟨t.x - 1, t.y - 1, 3, 3⟩ := by
  unfold Rectangle.containsPoint Rectangle.containsRect Rectangle.expandedInAllDirections
    Rectangle.right Rectangle.bottom at *
  dsimp only
  omega

theorem around_contains_neighbor (p : Vector) (d : Direction) :
    (⟨(p.add (enumDirectionToVector d)).x - 1,
      (p.add (enumDirectionToVector d)).y - 1, 3, 3⟩ : Rectangle).containsPoint p := by
  unfold Rectangle.containsPoint Rectangle.right Rectangle.bottom Vector.add
    enumDirectionToVector
  cases d <;> (dsimp only; omega)

theorem around_contains_center (t : Vector) :
    (⟨t.x - 1, t.y - 1, 3, 3⟩ : Rectangle).containsPoint t := by
  unfold Rectangle.containsPoint Rectangle.right Rectangle.bottom
  dsimp only
  omega

theorem getTileContent_some_of_find? {s : GameState} {t : Vector} {p : Vector × Nat}
    (hf : s.map.find? (fun q => decide (q.1 = t)) = some p) :
    s.getTileContent t = getObject s.objects p.2 := by
  unfold GameState.getTileContent
  rw [hf]

theorem getTileContent_none_of_find? {s : GameState} {t : Vector}
    (hf : s.map.find? (fun q => decide (q.1 = t)) = none) :
    s.getTileContent t = none := by
  unfold GameState.getTileContent
  rw [hf]

theorem checkInvalidation_area_covers {s1 : GameState} {e : Entity}
    {st : StaticMapEntityComponent} (hinit : s1.gameInitialized = true)
    (hst : e.components.StaticMapEntity = some st) {t : Vector}
    (hcov : st.getTileSpaceBounds.containsPoint t) :
    ∃ a, (checkForCacheInvalidation s1 e).areaToRecompute = some a
      ∧ a.containsRect ⟨t.x - 1, t.y - 1, 3, 3⟩ := by
  rw [checkInvalidation_active s1 e st hinit hst]
  refine ⟨_, rfl, ?_⟩
  have hE := expand2_covers_around hcov
  cases h : s1.areaToRecompute with
  | none => exact hE
  | some ar => exact Rectangle.containsRect_trans (Rectangle.getUnion_right _ _) hE

theorem area_mono_event {s : GameState} (hinit : s.gameInitialized = true)
    {ev : GameEvent} (hok : eventOK s ev = true) {a : Rectangle}
    (ha : s.areaToRecompute = some a) :
    ∃ a', (applyEvent s ev).areaToRecompute = some a' ∧ a'.containsRect a := by
  cases ev with
  | add d =>
      obtain ⟨st, hst, _⟩ := eventOK_add_facts hok
      rw [applyEvent_add]
      rw [checkInvalidation_active
        { s with
            objects := s.objects ++ [d.entity]
            map := s.map ++ d.tiles.map (fun t => (t, d.entity.uid))
            allEntities :=
              if d.entity.components.ItemEjector.isSome then
                s.allEntities ++ [d.entity.uid]
              else s.allEntities } d.entity st hinit hst]
      dsimp only
      rw [ha]
      exact ⟨_, rfl, Rectangle.getUnion_left _ _⟩
  | destroy u =>
      obtain ⟨e, st, hge, hst⟩ := eventOK_destroy_facts hok
      rw [applyEvent_destroy, hge]
      dsimp only
      rw [checkInvalidation_active
        { s with
            map := s.map.filter (fun p => !(decide (p.2 = u)))
            allEntities := s.allEntities.filter (fun w => !(decide (w = u))) }
        e st hinit hst]
      dsimp only
      rw [ha]
      exact ⟨_, rfl, Rectangle.getUnion_left _ _⟩

theorem area_mono_events : ∀ (evs : List GameEvent) (s : GameState),
    s.gameInitialized = true → eventsOK s evs = true →
    ∀ a, s.areaToRecompute = some a →
    ∃ A, (applyEvents s evs).areaToRecompute = some A ∧ A.containsRect a := by
  intro evs
  induction evs with
  | nil =>
      intro s _ _ a ha
      exact ⟨a, ha, Rectangle.containsRect_refl a⟩
  | cons ev evs ih =>
      intro s hinit hok a ha
      obtain ⟨h1, h2⟩ := eventsOK_cons hok
      obtain ⟨a1, ha1, hc1⟩ := area_mono_event hinit h1 ha
      have hinit1 : (applyEvent s ev).gameInitialized = true := by
        rw [applyEvent_gameInitialized]
        exact hinit
      obtain ⟨A, hA, hcA⟩ := ih (applyEvent s ev) hinit1 h2 a1 ha1
      refine ⟨A, ?_, Rectangle.containsRect_trans hcA hc1⟩
      rw [applyEvents_cons]
      exact hA

theorem applyEvent_tile_stable {s : GameState} (hc : CoherentFacts s)
    (hinit : s.gameInitialized = true) {ev : GameEvent} (hok : eventOK s ev = true)
    (t : Vector) :
    (applyEvent s ev).getTileContent t = s.getTileContent t
    ∨ ∃ a, (applyEvent s ev).areaToRecompute = some a
        ∧ a.containsRect ⟨t.x - 1, t.y - 1, 3, 3⟩ := by
  cases ev with
  | add d =>
      obtain ⟨st, hst, hnd, hfresh, htiles, hej⟩ := eventOK_add_facts hok
      rw [applyEvent_add]
      cases hfind : s.map.find? (fun q => decide (q.1 = t)) with
      | some p =>
          left
          rw [checkInvalidation_getTileContent]
          have hp : p ∈ s.map := List.mem_of_find?_eq_some hfind
          obtain ⟨e0, st0, hge0, _, _⟩ := hc.mapRes p hp
          have hfind1 : (s.map ++ d.tiles.map (fun t' => (t', d.entity.uid))).find?
              (fun q => decide (q.1 = t)) = some p := by
            rw [List.find?_append, hfind]
            rfl
          have hL := getTileContent_some_of_find?
            (s := { s with
                objects := s.objects ++ [d.entity]
                map := s.map ++ d.tiles.map (fun t' => (t', d.entity.uid))
                allEntities :=
                  if d.entity.components.ItemEjector.isSome then
                    s.allEntities ++ [d.entity.uid]
                  else s.allEntities }) hfind1
          rw [hL, getTileContent_some_of_find? hfind]
          show getObject (s.objects ++ [d.entity]) p.2 = getObject s.objects p.2
          rw [getObject_append_left [d.entity] hge0, hge0]
      | none =>
          by_cases htmem : t ∈ d.tiles
          · right
            refine checkInvalidation_area_covers ?_ hst (htiles t htmem).2
            exact hinit
          · left
            rw [checkInvalidation_getTileContent]
            have hfind2 : (d.tiles.map (fun t' => (t', d.entity.uid))).find?
                (fun q => decide (q.1 = t)) = none := by
              apply find?_key_none
              rw [List.map_map]
              intro hx
              apply htmem
              have : (Prod.fst ∘ fun t' => (t', d.entity.uid)) = fun t' : Vector => t' :=
                rfl
              rw [this] at hx
              simpa using hx
            have hfind1 : (s.map ++ d.tiles.map (fun t' => (t', d.entity.uid))).find?
                (fun q => decide (q.1 = t)) = none := by
              rw [List.find?_append, hfind, hfind2]
              rfl
            have hL := getTileContent_none_of_find?
              (s := { s with
                  objects := s.objects ++ [d.entity]
                  map := s.map ++ d.tiles.map (fun t' => (t', d.entity.uid))
                  allEntities :=
                    if d.entity.components.ItemEjector.isSome then
                      s.allEntities ++ [d.entity.uid]
                    else s.allEntities }) hfind1
            rw [hL, getTileContent_none_of_find? hfind]
  | destroy u =>
      obtain ⟨e, st, hge, hst⟩ := eventOK_destroy_facts hok
      rw [applyEvent_destroy, hge]
      dsimp only
      have hfilter := find?_key_filter s.map (fun p => !(decide (p.2 = u))) t hc.nodupKeys
      cases hfind : s.map.find? (fun q => decide (q.1 = t)) with
      | none =>
          left
          rw [checkInvalidation_getTileContent]
          rw [hfind] at hfilter
          have hL := getTileContent_none_of_find?
            (s := { s with
                map := s.map.filter (fun p => !(decide (p.2 = u)))
                allEntities := s.allEntities.filter (fun w => !(decide (w = u))) }) hfilter
          rw [hL, getTileContent_none_of_find? hfind]
      | some p =>
          rw [hfind] at hfilter
          dsimp only at hfilter
          by_cases hq : (!(decide (p.2 = u))) = true
          · left
            rw [checkInvalidation_getTileContent]
            rw [if_pos hq] at hfilter
            have hL := getTileContent_some_of_find?
              (s := { s with
                  map := s.map.filter (fun p => !(decide (p.2 = u)))
                  allEntities := s.allEntities.filter (fun w => !(decide (w = u))) }) hfilter
            rw [hL, getTileContent_some_of_find? hfind]
          · right
            have hpu : p.2 = u := by simpa using hq
            have hp : p ∈ s.map := List.mem_of_find?_eq_some hfind
            have hpt : p.1 = t := by simpa using List.find?_some hfind
            obtain ⟨e0, st0, hge0, hst0, hcont⟩ := hc.mapRes p hp
            have he0 : e0 = e := by
              rw [hpu, hge] at hge0
              exact (Option.some.inj hge0).symm
            have hst0' : some st0 = some st := by
              rw [← hst, ← hst0, he0]
            have hstEq : st0 = st := Option.some.inj hst0'
            refine checkInvalidation_area_covers ?_ hst ?_
            · exact hinit
            · rw [← hstEq, ← hpt]
              exact hcont

theorem tiles_stable : ∀ (evs : List GameEvent) (s : GameState),
    CoherentFacts s → s.gameInitialized = true → eventsOK s evs = true →
    ∀ t : Vector,
      (applyEvents s evs).getTileContent t = s.getTileContent t
      ∨ ∃ A, (applyEvents s evs).areaToRecompute = some A
          ∧ A.containsRect ⟨t.x - 1, t.y - 1, 3, 3⟩ := by
  intro evs
  induction evs with
  | nil =>
      intro s _ _ _ t
      left
      rfl
  | cons ev evs ih =>
      intro s hc hinit hok t
      obtain ⟨h1, h2⟩ := eventsOK_cons hok
      have hc1 := coherent_applyEvent hc h1
      have hinit1 : (applyEvent s ev).gameInitialized = true := by
        rw [applyEvent_gameInitialized]
        exact hinit
      rw [applyEvents_cons]
      rcases ih (applyEvent s ev) hc1 hinit1 h2 t with heq | ⟨A, hA, hcov⟩
      · rcases applyEvent_tile_stable hc hinit h1 t with heq0 | ⟨a, ha, hcova⟩
        · left
          rw [heq, heq0]
        · right
          obtain ⟨A, hA, hAa⟩ := area_mono_events evs (applyEvent s ev) hinit1 h2 a ha
          exact ⟨A, hA, Rectangle.containsRect_trans hAa hcova⟩
      · right
        exact ⟨A, hA, hcov⟩

theorem mem_visitStep_mono (s : GameState) (v : List Nat) (t : Vector) {u : Nat}
    (h : u ∈ v) : u ∈ visitStep s v t := by
  unfold visitStep
  cases s.getTileContent t with
  | none => exact h
  | some e =>
      dsimp only
      by_cases hcb : v.contains e.uid = true
      · rw [if_pos hcb]
        exact h
      · rw [if_neg hcb]
        cases e.components.ItemEjector with
        | none => exact h
        | some c => exact List.mem_append_left _ h

theorem mem_visitFold_mono (s : GameState) : ∀ (ts : List Vector) (v : List Nat) {u : Nat},
    u ∈ v → u ∈ visitFold s v ts := by
  intro ts
  induction ts with
  | nil =>
      intro v u h
      exact h
  | cons t ts ih =>
      intro v u h
      rw [visitFold_cons]
      exact ih (visitStep s v t) (mem_visitStep_mono s v t h)

theorem visitStep_hit (s : GameState) (v : List Nat) (t : Vector) {e : Entity}
    (hg : s.getTileContent t = some e) (hej : e.components.ItemEjector.isSome = true) :
    e.uid ∈ visitStep s v t := by
  unfold visitStep
  rw [hg]
  dsimp only
  by_cases hcb : v.contains e.uid = true
  · rw [if_pos hcb]
    simpa using hcb
  · rw [if_neg hcb]
    obtain ⟨c, hcE⟩ := Option.isSome_iff_exists.mp hej
    rw [hcE]
    exact List.mem_append_right _ (List.mem_singleton.mpr rfl)

theorem visitFold_hit (s : GameState) : ∀ (ts : List Vector) (v : List Nat) {t : Vector},
    t ∈ ts → ∀ {e : Entity}, s.getTileContent t = some e →
    e.components.ItemEjector.isSome = true → e.uid ∈ visitFold s v ts := by
  intro ts
  induction ts with
  | nil =>
      intro v t ht
      cases ht
  | cons t0 ts ih =>
      intro v t ht e hg hej
      rw [visitFold_cons]
      rcases List.mem_cons.mp ht with rfl | hmem
      · exact mem_visitFold_mono s ts _ (visitStep_hit s v t hg hej)
      · exact ih (visitStep s v t0) hmem hg hej

theorem mem_visitStep_src {s : GameState} {v : List Nat} {t : Vector} {u : Nat}
    (h : u ∈ visitStep s v t) :
    u ∈ v ∨ ∃ e, s.getTileContent t = some e ∧ e.uid = u
      ∧ e.components.ItemEjector.isSome = true := by
  unfold visitStep at h
  cases hg : s.getTileContent t with
  | none =>
      rw [hg] at h
      exact Or.inl h
  | some e =>
      rw [hg] at h
      dsimp only at h
      by_cases hcb : v.contains e.uid = true
      · rw [if_pos hcb] at h
        exact Or.inl h
      · rw [if_neg hcb] at h
        cases hc : e.components.ItemEjector with
        | none =>
            rw [hc] at h
            exact Or.inl h
        | some c =>
            rw [hc] at h
            rcases List.mem_append.mp h with hv | hnew
            · exact Or.inl hv
            · refine Or.inr ⟨e, rfl, (List.mem_singleton.mp hnew).symm, ?_⟩
              rw [hc]
              rfl

theorem mem_visitFold_src (s : GameState) : ∀ (ts : List Vector) (v : List Nat) {u : Nat},
    u ∈ visitFold s v ts →
    u ∈ v ∨ ∃ t ∈ ts, ∃ e, s.getTileContent t = some e ∧ e.uid = u
      ∧ e.components.ItemEjector.isSome = true := by
  intro ts
  induction ts with
  | nil =>
      intro v u h
      exact Or.inl h
  | cons t ts ih =>
      intro v u h
      rw [visitFold_cons] at h
      rcases ih (visitStep s v t) h with hstep | ⟨t', ht', e, hg, hu, hej⟩
      · rcases mem_visitStep_src hstep with hv | ⟨e, hg, hu, hej⟩
        · exact Or.inl hv
        · exact Or.inr ⟨t, List.mem_cons_self t ts, e, hg, hu, hej⟩
      · exact Or.inr ⟨t', List.mem_cons_of_mem t ht', e, hg, hu, hej⟩

theorem resolveSlot_eq_of_occupancy (s s' : GameState) (st : StaticMapEntityComponent)
    (sl : EjectorSlot)
    (h : s'.getTileContent ((st.localTileToWorld sl.pos).add
          (enumDirectionToVector (st.localDirectionToWorld sl.direction)))
        = s.getTileContent ((st.localTileToWorld sl.pos).add
          (enumDirectionToVector (st.localDirectionToWorld sl.direction)))) :
    resolveSlot s' st sl = resolveSlot s st sl := by
  unfold resolveSlot
  dsimp only
  rw [h]

theorem computeSlots_congr_resolve (s s' : GameState) (st : StaticMapEntityComponent) :
    ∀ (slots : List EjectorSlot),
      (∀ sl ∈ slots, resolveSlot s' st sl = resolveSlot s st sl) →
      ∀ (i : Nat) (conn : Option (List Nat)),
        computeSlots s' st slots i conn = computeSlots s st slots i conn := by
  intro slots
  induction slots with
  | nil =>
      intro _ i conn
      rw [computeSlots_nil, computeSlots_nil]
  | cons sl rest ih =>
      intro h i conn
      rw [computeSlots_cons, computeSlots_cons]
      rw [h sl (List.mem_cons_self sl rest)]
      have hrest := fun sl' hsl' => h sl' (List.mem_cons_of_mem sl hsl')
      cases hr : resolveSlot s st sl with
      | none =>
          dsimp only
          rw [ih hrest (i + 1) conn]
      | some pr =>
          obtain ⟨tu, m⟩ := pr
          dsimp only
          rw [ih hrest (i + 1) _]

theorem expand2_contains_self (b : Rectangle) :
    (b.expandedInAllDirections 2).containsRect b := by
  unfold Rectangle.expandedInAllDirections Rectangle.containsRect Rectangle.right
    Rectangle.bottom
  dsimp only
  omega

theorem allEntities_origin : ∀ (evs : List GameEvent) (s : GameState),
    s.gameInitialized = true → eventsOK s evs = true →
    ∀ u ∈ (applyEvents s evs).allEntities,
      u ∈ s.allEntities ∨
      ∃ e c st A, getObject (applyEvents s evs).objects u = some e
        ∧ e.components.ItemEjector = some c
        ∧ e.components.StaticMapEntity = some st
        ∧ c.cachedConnectedSlots = none
        ∧ (applyEvents s evs).areaToRecompute = some A
        ∧ ∀ sl ∈ c.slots, sl.cachedDestSlot = none ∧ sl.cachedTargetEntity = none
            ∧ A.containsPoint (st.localTileToWorld sl.pos) := by
  intro evs
  induction evs with
  | nil =>
      intro s _ _ u hu
      exact Or.inl hu
  | cons ev evs ih =>
      intro s hinit hok u hu
      obtain ⟨h1, h2⟩ := eventsOK_cons hok
      have hinit1 : (applyEvent s ev).gameInitialized = true := by
        rw [applyEvent_gameInitialized]
        exact hinit
      rw [applyEvents_cons] at hu
      rcases ih (applyEvent s ev) hinit1 h2 u hu with hmem1 | hfreshFacts
      · cases ev with
        | destroy w =>
            obtain ⟨e, st, hge, hst⟩ := eventOK_destroy_facts h1
            have hall : (applyEvent s (GameEvent.destroy w)).allEntities
                = s.allEntities.filter (fun x => !(decide (x = w))) := by
              rw [applyEvent_destroy, hge]
              dsimp only
              rw [checkInvalidation_allEntities]
            rw [hall] at hmem1
            exact Or.inl (List.mem_of_mem_filter hmem1)
        | add d =>
            obtain ⟨st, hst, hnd, hfresh, htiles, hej⟩ := eventOK_add_facts h1
            have hall : (applyEvent s (GameEvent.add d)).allEntities
                = if d.entity.components.ItemEjector.isSome then
                    s.allEntities ++ [d.entity.uid]
                  else s.allEntities := by
              rw [applyEvent_add, checkInvalidation_allEntities]
            rw [hall] at hmem1
            by_cases hesome : d.entity.components.ItemEjector.isSome = true
            · rw [if_pos hesome] at hmem1
              rcases List.mem_append.mp hmem1 with hold | hnewu
              · exact Or.inl hold
              · have huid : u = d.entity.uid := List.mem_singleton.mp hnewu
                obtain ⟨c, hcE⟩ := Option.isSome_iff_exists.mp hesome
                obtain ⟨hconn, hslots⟩ := hej c hcE
                have hg1 : getObject (applyEvent s (GameEvent.add d)).objects
                    d.entity.uid = some d.entity := by
                  rw [applyEvent_add, checkInvalidation_objects]
                  dsimp only
                  rw [getObject_append_fresh (getObject_none_of_not_mem hfresh)]
                  exact getObject_singleton_self d.entity
                have hgf : getObject (applyEvents (applyEvent s (GameEvent.add d)) evs).objects
                    d.entity.uid = some d.entity :=
                  getObject_applyEvents_old hg1 evs
                have hs1area : (applyEvent s (GameEvent.add d)).areaToRecompute
                    = some (match s.areaToRecompute with
                        | some area =>
                            area.getUnion (st.getTileSpaceBounds.expandedInAllDirections 2)
                        | none => st.getTileSpaceBounds.expandedInAllDirections 2) := by
                  rw [applyEvent_add]
                  rw [checkInvalidation_active
                    { s with
                        objects := s.objects ++ [d.entity]
                        map := s.map ++ d.tiles.map (fun t => (t, d.entity.uid))
                        allEntities :=
                          if d.entity.components.ItemEjector.isSome then
                            s.allEntities ++ [d.entity.uid]
                          else s.allEntities } d.entity st hinit hst]
                have hcontE : (match s.areaToRecompute with
                      | some area =>
                          area.getUnion (st.getTileSpaceBounds.expandedInAllDirections 2)
                      | none => st.getTileSpaceBounds.expandedInAllDirections 2).containsRect
                    (st.getTileSpaceBounds.expandedInAllDirections 2) := by
                  cases s.areaToRecompute with
                  | none => exact Rectangle.containsRect_refl _
                  | some ar => exact Rectangle.getUnion_right _ _
                obtain ⟨A, hA, hAcont⟩ := area_mono_events evs (applyEvent s (GameEvent.add d))
                  hinit1 h2 _ hs1area
                have hAbounds : A.containsRect st.getTileSpaceBounds :=
                  Rectangle.containsRect_trans hAcont
                    (Rectangle.containsRect_trans hcontE (expand2_contains_self _))
                rw [applyEvents_cons, huid]
                refine Or.inr ⟨d.entity, c, st, A, hgf, hcE, hst, hconn, hA, ?_⟩
                intro sl hsl
                obtain ⟨hd1, ht1, hin1⟩ := hslots sl hsl
                exact ⟨hd1, ht1,
                  Rectangle.containsRect_containsPoint hAbounds (htiles _ hin1).2⟩
            · rw [if_neg hesome] at hmem1
              exact Or.inl hmem1
      · rw [applyEvents_cons]
        exact Or.inr hfreshFacts

theorem recomputeCache_none {s : GameState} (h : s.areaToRecompute = none) :
    recomputeCache s
      = s.allEntities.foldl (fun acc uid => recomputeSingleEntityCache acc uid) s := by
  unfold recomputeCache
  rw [h]

theorem recomputeCache_some {s : GameState} {a : Rectangle}
    (h : s.areaToRecompute = some a) :
    recomputeCache s = { recomputeAreaCache s a with areaToRecompute := none } := by
  unfold recomputeCache
  rw [h]

theorem tracked_of_tile {s : GameState} (hcf : CoherentFacts s) {t : Vector} {e : Entity}
    (hg : s.getTileContent t = some e) (hej : e.components.ItemEjector.isSome = true) :
    e.uid ∈ s.allEntities := by
  unfold GameState.getTileContent at hg
  cases hf : s.map.find? (fun p => decide (p.1 = t)) with
  | none =>
      rw [hf] at hg
      cases hg
  | some p =>
      rw [hf] at hg
      have huid : e.uid = p.2 := getObject_uid hg
      rw [huid]
      exact hcf.tracked p (List.mem_of_find?_eq_some hf) e hg hej

theorem recomputeFull_fold_abs (s : GameState) (hnd : (uidsOf s.objects).Nodup) :
    ∀ (us v : List Nat), v.Nodup → us.Nodup →
      (∀ x ∈ us, x ∉ v) →
      (∀ x ∈ us, ∃ e c, getObject s.objects x = some e
        ∧ e.components.ItemEjector = some c) →
      us.foldl (fun acc uid => recomputeSingleEntityCache acc uid) (applyWrites s v)
        = applyWrites s (v ++ us) := by
  intro us
  induction us with
  | nil =>
      intro v _ _ _ _
      rw [List.foldl_nil, List.append_nil]
  | cons u us ih =>
      intro v hv hus hdis hres
      obtain ⟨e, c, he, hc⟩ := hres u (List.mem_cons_self u us)
      rw [List.foldl_cons]
      rw [recomputeSingle_applyWrites s v u hnd (hdis u (List.mem_cons_self u us)) e he c hc]
      have hus' := List.nodup_cons.mp hus
      have hvu : (v ++ [u]).Nodup := by
        rw [List.nodup_append]
        exact ⟨hv, List.nodup_singleton u,
          fun x hx => by
            simp only [List.mem_singleton]
            intro hxu
            exact hdis u (List.mem_cons_self u us) (hxu ▸ hx)⟩
      have hdis' : ∀ x ∈ us, x ∉ v ++ [u] := by
        intro x hx
        rw [List.mem_append, List.mem_singleton]
        rintro (hxv | hxu)
        · exact hdis x (List.mem_cons_of_mem u hx) hxv
        · exact hus'.1 (hxu ▸ hx)
      have hres' : ∀ x ∈ us, ∃ e c, getObject s.objects x = some e
          ∧ e.components.ItemEjector = some c :=
        fun x hx => hres x (List.mem_cons_of_mem u hx)
      rw [ih (v ++ [u]) hvu hus'.2 hdis' hres', List.append_assoc]
      rfl

theorem recomputeFull_abs (s : GameState) (hnd : (uidsOf s.objects).Nodup)
    (hall : s.allEntities.Nodup)
    (hres : ∀ u ∈ s.allEntities, ∃ e c, getObject s.objects u = some e
      ∧ e.components.ItemEjector = some c) :
    s.allEntities.foldl (fun acc uid => recomputeSingleEntityCache acc uid) s
      = applyWrites s s.allEntities := by
  have h := recomputeFull_fold_abs s hnd s.allEntities [] List.nodup_nil hall
    (fun x _ hx => (List.not_mem_nil x) hx) hres
  rw [applyWrites_nil] at h
  rw [h]
  rfl

theorem applyWrites_erase_area (s : GameState) (us : List Nat) :
    applyWrites { s with areaToRecompute := none } us
      = { applyWrites s us with areaToRecompute := none } := by
  refine gameState_eq_of_fields ?_ rfl rfl rfl rfl
  rw [applyWrites_objects, applyWrites_objects]
  apply List.map_congr_left
  intro e he
  by_cases h : us.contains e.uid = true
  · rw [if_pos h, if_pos h]
    rw [applyRecompute_congr s { s with areaToRecompute := none } rfl rfl]
  · rw [if_neg h, if_neg h]

theorem applyWrites_visited_eq_full (s0 : GameState)
    (hco : coherentB s0 = true) (hcc : cacheCorrectB s0 = true)
    (hinit : s0.gameInitialized = true)
    (evs : List GameEvent) (hok : eventsOK s0 evs = true)
    (A : Rectangle) (hSarea : (applyEvents s0 evs).areaToRecompute = some A) :
    applyWrites (applyEvents s0 evs)
        (visitFold (applyEvents s0 evs) [] A.tileList)
      = applyWrites (applyEvents s0 evs) (applyEvents s0 evs).allEntities := by
  have hcf0 := coherentB_facts hco
  have hcfS := coherent_applyEvents evs s0 hcf0 hok
  refine gameState_eq_of_fields ?_ rfl rfl rfl rfl
  rw [applyWrites_objects, applyWrites_objects]
  apply List.map_congr_left
  intro e he
  by_cases hv : (visitFold (applyEvents s0 evs) [] A.tileList).contains e.uid = true
  · by_cases ha : (applyEvents s0 evs).allEntities.contains e.uid = true
    · rw [if_pos hv, if_pos ha]
    · exfalso
      have hvmem : e.uid ∈ visitFold (applyEvents s0 evs) [] A.tileList := by
        simpa using hv
      rcases mem_visitFold_src (applyEvents s0 evs) A.tileList [] hvmem with
        hnil | ⟨t, _, e', hg, hu, hej⟩
      · exact (List.not_mem_nil e.uid) hnil
      · have htr := tracked_of_tile hcfS hg hej
        rw [hu] at htr
        exact ha (by simpa using htr)
  · by_cases ha : (applyEvents s0 evs).allEntities.contains e.uid = true
    · rw [if_neg hv, if_pos ha]
      have hamem : e.uid ∈ (applyEvents s0 evs).allEntities := by simpa using ha
      have hvnot : e.uid ∉ visitFold (applyEvents s0 evs) [] A.tileList := by
        simpa using hv
      have hgeS : getObject (applyEvents s0 evs).objects e.uid = some e :=
        getObject_of_mem_nodup hcfS.nodupUids he
      obtain ⟨e2, c2, st2, hge2, hc2, hst2, hsl2⟩ := hcfS.allRes e.uid hamem
      have he2 : e2 = e := by
        rw [hgeS] at hge2
        exact (Option.some.inj hge2).symm
      rw [he2] at hc2 hst2
      have hejS : e.components.ItemEjector.isSome = true := by
        rw [hc2]
        rfl
      have hinV : ∀ t : Vector, A.containsPoint t →
          (t, e.uid) ∈ (applyEvents s0 evs).map → False := by
        intro t hcov hmem
        apply hvnot
        exact visitFold_hit (applyEvents s0 evs) A.tileList []
          ((mem_tileList A t).mpr hcov)
          (getTileContent_of_mem _ hcfS.nodupKeys hmem hgeS) hejS
      rcases allEntities_origin evs s0 hinit hok e.uid hamem with
        hold | ⟨e', c', st', A', hg', hcE', hst', hconn', hA', hslots'⟩
      · obtain ⟨e0, c0, st0, hge0, hc0, hst0, hsl0⟩ := hcf0.allRes e.uid hold
        have hge0S : getObject (applyEvents s0 evs).objects e.uid = some e0 :=
          getObject_applyEvents_old hge0 evs
        have he0 : e0 = e := by
          rw [hgeS] at hge0S
          exact (Option.some.inj hge0S).symm
        rw [he0] at hge0 hc0 hst0
        have hfix := cacheCorrectB_applyRecompute hcc hold hge0
        have hres : ∀ sl ∈ c0.slots,
            resolveSlot (applyEvents s0 evs) st0 sl = resolveSlot s0 st0 sl := by
          intro sl hsl
          rcases tiles_stable evs s0 hcf0 hinit hok
              ((st0.localTileToWorld sl.pos).add
                (enumDirectionToVector (st0.localDirectionToWorld sl.direction))) with
            heq | ⟨A', hA', hcov⟩
          · exact resolveSlot_eq_of_occupancy s0 (applyEvents s0 evs) st0 sl heq
          · exfalso
            have hA'A : A' = A := by
              rw [hSarea] at hA'
              exact (Option.some.inj hA').symm
            have hcp : A.containsPoint (st0.localTileToWorld sl.pos) := by
              rw [← hA'A]
              exact Rectangle.containsRect_containsPoint hcov
                (around_contains_neighbor _ _)
            have hceq : c2 = c0 := Option.some.inj (hc2.symm.trans hc0)
            have hsteq : st2 = st0 := Option.some.inj (hst2.symm.trans hst0)
            apply hinV (st0.localTileToWorld sl.pos) hcp
            have hslin : sl ∈ c2.slots := by
              rw [hceq]
              exact hsl
            have hm := hsl2 sl hslin
            rw [hsteq] at hm
            exact hm
        have hstab : applyRecompute (applyEvents s0 evs) e = applyRecompute s0 e := by
          rw [applyRecompute_of_some _ e c0 st0 hc0 hst0,
            applyRecompute_of_some s0 e c0 st0 hc0 hst0,
            computeSlots_congr_resolve s0 (applyEvents s0 evs) st0 c0.slots hres 0 none]
        rw [hstab, hfix]
      · have he' : e' = e := by
          rw [hgeS] at hg'
          exact (Option.some.inj hg').symm
        rw [he'] at hcE' hst'
        have hceq' : c' = c2 := Option.some.inj (hcE'.symm.trans hc2)
        have hsteq' : st' = st2 := Option.some.inj (hst'.symm.trans hst2)
        have hA'A : A' = A := by
          rw [hSarea] at hA'
          exact (Option.some.inj hA').symm
        have hslnil : c2.slots = [] := by
          cases hsl : c2.slots with
          | nil => rfl
          | cons sl rest =>
              exfalso
              have hslc' : sl ∈ c'.slots := by
                rw [hceq', hsl]
                exact List.mem_cons_self sl rest
              obtain ⟨_, _, hcovA'⟩ := hslots' sl hslc'
              rw [hsteq', hA'A] at hcovA'
              apply hinV (st2.localTileToWorld sl.pos) hcovA'
              apply hsl2 sl
              rw [hsl]
              exact List.mem_cons_self sl rest
        have hconn2 : c2.cachedConnectedSlots = none := by
          rw [← hceq']
          exact hconn'
        have hc2eq : c2 = ItemEjectorComponent.mk [] none := by
          cases c2 with
          | mk sl cn =>
              dsimp only at hslnil hconn2
              rw [hslnil, hconn2]
        rw [applyRecompute_of_some _ e c2 st2 hc2 hst2]
        have hmk : ItemEjectorComponent.mk
            ((computeSlots (applyEvents s0 evs) st2 c2.slots 0 none).1)
            ((computeSlots (applyEvents s0 evs) st2 c2.slots 0 none).2) = c2 := by
          rw [hslnil, computeSlots_nil]
          exact hc2eq.symm
        rw [hmk, setEntityEjector_self hc2]
    · rw [if_neg hv, if_neg ha]

/-- C1: starting from a coherent, cache-correct state with no pending area,
any sequence of entity-added/entity-removed events followed by the
recompute that consumes the pending area (recomputeCache) produces exactly
the state — cachedConnectedSlots, cachedTargetEntity and cachedDestSlot of
every slot included — that a full from-scratch recompute over the whole
grid (recomputeCache with the pending area erased) produces. -/
theorem c1_incremental_recompute_equals_full (s0 : GameState)
    (hco : coherentB s0 = true) (hcc : cacheCorrectB s0 = true)
    (harea : s0.areaToRecompute = none) (hinit : s0.gameInitialized = true)
    (evs : List GameEvent) (hok : eventsOK s0 evs = true) :
    recomputeCache (applyEvents s0 evs)
      = recomputeCache { applyEvents s0 evs with areaToRecompute := none } := by
  have hcf0 := coherentB_facts hco
  have hcfS := coherent_applyEvents evs s0 hcf0 hok
  have hres : ∀ u ∈ (applyEvents s0 evs).allEntities,
      ∃ e c, getObject (applyEvents s0 evs).objects u = some e
        ∧ e.components.ItemEjector = some c := by
    intro u hu
    obtain ⟨e, c, st, hge, hc, _, _⟩ := hcfS.allRes u hu
    exact ⟨e, c, hge, hc⟩
  have hTmp : ({ applyEvents s0 evs with areaToRecompute := none }
      : GameState).areaToRecompute = none := rfl
  cases hSarea : (applyEvents s0 evs).areaToRecompute with
  | none =>
      rw [recomputeCache_none hSarea, recomputeCache_none hTmp]
      rw [recomputeFull_abs (applyEvents s0 evs) hcfS.nodupUids hcfS.nodupAll hres]
      rw [recomputeFull_abs { applyEvents s0 evs with areaToRecompute := none }
        hcfS.nodupUids hcfS.nodupAll hres]
      rw [applyWrites_erase_area]
      refine gameState_eq_of_fields rfl rfl rfl ?_ rfl
      rw [applyWrites_area, hSarea]
  | some A =>
      rw [recomputeCache_some hSarea, recomputeCache_none hTmp]
      rw [recomputeAreaCache_abs (applyEvents s0 evs) A hcfS.nodupUids]
      rw [recomputeFull_abs { applyEvents s0 evs with areaToRecompute := none }
        hcfS.nodupUids hcfS.nodupAll hres]
      rw [applyWrites_erase_area]
      rw [applyWrites_visited_eq_full s0 hco hcc hinit evs hok A hSarea]

/-- Witness for C1: the dead-end world, destroying its single entity, then
recomputing — the incremental pass equals the full pass. -/
theorem c1_witness :
    (coherentB c6State = true ∧ cacheCorrectB c6State = true
      ∧ c6State.areaToRecompute = none ∧ c6State.gameInitialized = true
      ∧ eventsOK c6State [GameEvent.destroy 0] = true)
    ∧ recomputeCache (applyEvents c6State [GameEvent.destroy 0])
        = recomputeCache
            { applyEvents c6State [GameEvent.destroy 0] with areaToRecompute := none } :=
  ⟨⟨by decide, by decide, by decide, by decide, by decide⟩,
    c1_incremental_recompute_equals_full c6State (by decide) (by decide) (by decide)
      (by decide) [GameEvent.destroy 0] (by decide)⟩

theorem set_self_of_getElem? {α : Type} : ∀ (l : List α) (j : Nat) (a : α),
    l[j]? = some a → l.set j a = l := by
  intro l
  induction l with
  | nil =>
      intro j a h
      simp at h
  | cons x xs ih =>
      intro j a h
      cases j with
      | zero =>
          simp only [List.getElem?_cons_zero, Option.some.injEq] at h
          rw [List.set_cons_zero, h]
      | succ n =>
          simp only [List.getElem?_cons_succ] at h
          rw [List.set_cons_succ, ih n a h]

theorem setEntitySlot_same {e : Entity} {comp : ItemEjectorComponent}
    (hc : e.components.ItemEjector = some comp) {j : Nat} {sl : EjectorSlot}
    (hj : comp.slots[j]? = some sl) : setEntitySlot j sl e = e := by
  unfold setEntitySlot
  rw [hc]
  dsimp only
  rw [set_self_of_getElem? comp.slots j sl hj]
  have hcomp : ({ comp with slots := comp.slots } : ItemEjectorComponent) = comp := rfl
  rw [hcomp]
  exact setEntityEjector_self hc

theorem slot_progress_set_self {sl : EjectorSlot} (h : sl.progress = 1) :
    ({ sl with progress := 1 } : EjectorSlot) = sl := by
  cases sl
  dsimp only at h ⊢
  rw [← h]

theorem updateSlot_below (g us : Rat) (objects : List Entity) (uid j : Nat)
    (e : Entity) (hge : getObject objects uid = some e)
    (comp : ItemEjectorComponent) (hc : e.components.ItemEjector = some comp)
    (sl : EjectorSlot) (hj : comp.slots[j]? = some sl)
    (item : Item) (hitem : sl.item = some item)
    (hlt : min 1 (sl.progress + g) < 1) :
    updateSlot g us objects uid j = Except.ok (mapObject objects uid
      (setEntitySlot j { sl with progress := min 1 (sl.progress + g) })) := by
  unfold updateSlot
  rw [hge]
  dsimp only
  rw [hc]
  dsimp only
  rw [hj]
  dsimp only
  rw [hitem]
  dsimp only
  rw [if_pos hlt]

theorem updateSlot_reaches (g us : Rat) (objects : List Entity) (uid j : Nat)
    (e : Entity) (hge : getObject objects uid = some e)
    (comp : ItemEjectorComponent) (hc : e.components.ItemEjector = some comp)
    (sl : EjectorSlot) (hj : comp.slots[j]? = some sl)
    (item : Item) (hitem : sl.item = some item)
    (hnl : ¬ min 1 (sl.progress + g) < 1)
    (tu : Nat) (hct : sl.cachedTargetEntity = some tu)
    (te : Entity) (hgt : getObject objects tu = some te)
    (acc : ItemAcceptorComponent) (hacc : te.components.ItemAcceptor = some acc)
    (ds : AcceptorSlotMatch) (hds : sl.cachedDestSlot = some ds) :
    updateSlot g us objects uid j
      = if acc.canAcceptItem ds.index item then
          match tryPassOverItem item te ds.index us with
          | Except.error msg => Except.error msg
          | Except.ok true => Except.ok (mapObject objects uid
              (setEntitySlot j { sl with
                progress := min 1 (sl.progress + g), item := none }))
          | Except.ok false => Except.ok (mapObject objects uid
              (setEntitySlot j { sl with progress := min 1 (sl.progress + g) }))
        else Except.ok (mapObject objects uid
          (setEntitySlot j { sl with progress := min 1 (sl.progress + g) })) := by
  unfold updateSlot
  rw [hge]
  dsimp only
  rw [hc]
  dsimp only
  rw [hj]
  dsimp only
  rw [hitem]
  dsimp only
  rw [if_neg hnl, hct]
  dsimp only
  rw [hgt]
  dsimp only
  rw [hacc]
  dsimp only
  rw [hds]

theorem updateSlot_pinned (g us : Rat) (objects : List Entity) (uid j : Nat)
    (hnd : (uidsOf objects).Nodup)
    (e : Entity) (hge : getObject objects uid = some e)
    (comp : ItemEjectorComponent) (hc : e.components.ItemEjector = some comp)
    (sl : EjectorSlot) (hj : comp.slots[j]? = some sl)
    (item : Item) (hitem : sl.item = some item)
    (tu : Nat) (hct : sl.cachedTargetEntity = some tu)
    (te : Entity) (hgt : getObject objects tu = some te)
    (acc : ItemAcceptorComponent) (hacc : te.components.ItemAcceptor = some acc)
    (ds : AcceptorSlotMatch) (hds : sl.cachedDestSlot = some ds)
    (hg : 0 ≤ g) (hp : sl.progress = 1)
    (hdecl : acc.canAcceptItem ds.index item = false) :
    updateSlot g us objects uid j = Except.ok objects := by
  have hmin : min 1 (sl.progress + g) = 1 := by
    rw [hp]
    exact min_eq_left (le_add_of_nonneg_right hg)
  have hnl : ¬ min 1 (sl.progress + g) < 1 := by
    rw [hmin]
    exact lt_irrefl 1
  rw [updateSlot_reaches g us objects uid j e hge comp hc sl hj item hitem hnl
    tu hct te hgt acc hacc ds hds]
  rw [if_neg (by simp [hdecl])]
  rw [hmin, slot_progress_set_self hp]
  have hfix : mapObject objects uid (setEntitySlot j sl) = objects := by
    unfold mapObject
    have hpt : ∀ o ∈ objects, (if o.uid = uid then setEntitySlot j sl o else o) = o := by
      intro o ho
      by_cases houid : o.uid = uid
      · have hgo := getObject_of_mem_nodup hnd ho
        rw [houid, hge] at hgo
        have hoe : o = e := (Option.some.inj hgo).symm
        rw [if_pos houid, hoe]
        exact setEntitySlot_same hc hj
      · rw [if_neg houid]
    calc objects.map (fun o => if o.uid = uid then setEntitySlot j sl o else o)
        = objects.map id := List.map_congr_left hpt
      _ = objects := List.map_id _
  rw [hfix]

theorem iterateUpdateSlot_pinned (g us : Rat) (objects : List Entity) (uid j : Nat)
    (hnd : (uidsOf objects).Nodup)
    (e : Entity) (hge : getObject objects uid = some e)
    (comp : ItemEjectorComponent) (hc : e.components.ItemEjector = some comp)
    (sl : EjectorSlot) (hj : comp.slots[j]? = some sl)
    (item : Item) (hitem : sl.item = some item)
    (tu : Nat) (hct : sl.cachedTargetEntity = some tu)
    (te : Entity) (hgt : getObject objects tu = some te)
    (acc : ItemAcceptorComponent) (hacc : te.components.ItemAcceptor = some acc)
    (ds : AcceptorSlotMatch) (hds : sl.cachedDestSlot = some ds)
    (hg : 0 ≤ g) (hp : sl.progress = 1)
    (hdecl : acc.canAcceptItem ds.index item = false) :
    ∀ n, iterateUpdateSlot g us uid j n objects = Except.ok objects := by
  intro n
  induction n with
  | zero => rfl
  | succ n ih =>
      show (match updateSlot g us objects uid j with
        | Except.error msg => Except.error msg
        | Except.ok os => iterateUpdateSlot g us uid j n os) = Except.ok objects
      rw [updateSlot_pinned g us objects uid j hnd e hge comp hc sl hj item hitem
        tu hct te hgt acc hacc ds hds hg hp hdecl]
      exact ih

/-- C2: for a slot with a resolved cache holding an item, the tick body
sets progress to min(1, progress + progressGrowth) — never above 1, never
decremented (for nonnegative growth) — and keeps the item while progress
is below 1; once progress reaches 1, the tick either clears the item (the
acceptor accepts and the handover succeeds), or keeps the item with
progress exactly 1 (the acceptor declines, or the handover is refused);
under a persistently declining acceptor the slot is a fixed point of the
tick body for arbitrarily many ticks — the item is never lost. -/
theorem c2_progress_capped_item_conserved
    (g us : Rat) (objects : List Entity) (uid j : Nat)
    (e : Entity) (hge : getObject objects uid = some e)
    (comp : ItemEjectorComponent) (hc : e.components.ItemEjector = some comp)
    (sl : EjectorSlot) (hj : comp.slots[j]? = some sl)
    (item : Item) (hitem : sl.item = some item)
    (tu : Nat) (hct : sl.cachedTargetEntity = some tu)
    (te : Entity) (hgt : getObject objects tu = some te)
    (acc : ItemAcceptorComponent) (hacc : te.components.ItemAcceptor = some acc)
    (ds : AcceptorSlotMatch) (hds : sl.cachedDestSlot = some ds) :
    (min 1 (sl.progress + g) ≤ 1
      ∧ (0 ≤ g → sl.progress ≤ 1 → sl.progress ≤ min 1 (sl.progress + g)))
    ∧ (min 1 (sl.progress + g) < 1 →
        updateSlot g us objects uid j = Except.ok (mapObject objects uid
          (setEntitySlot j { sl with progress := min 1 (sl.progress + g) })))
    ∧ (¬ min 1 (sl.progress + g) < 1 →
        min 1 (sl.progress + g) = 1
        ∧ (acc.canAcceptItem ds.index item = false →
            updateSlot g us objects uid j = Except.ok (mapObject objects uid
              (setEntitySlot j { sl with progress := min 1 (sl.progress + g) })))
        ∧ (acc.canAcceptItem ds.index item = true →
            tryPassOverItem item te ds.index us = Except.ok true →
            updateSlot g us objects uid j = Except.ok (mapObject objects uid
              (setEntitySlot j { sl with
                progress := min 1 (sl.progress + g), item := none })))
        ∧ (acc.canAcceptItem ds.index item = true →
            tryPassOverItem item te ds.index us = Except.ok false →
            updateSlot g us objects uid j = Except.ok (mapObject objects uid
              (setEntitySlot j { sl with progress := min 1 (sl.progress + g) }))))
    ∧ ((uidsOf objects).Nodup → 0 ≤ g → sl.progress = 1 →
        acc.canAcceptItem ds.index item = false →
        ∀ n, iterateUpdateSlot g us uid j n objects = Except.ok objects) := by
  refine ⟨⟨min_le_left 1 _, fun hg hp1 => le_min hp1 (le_add_of_nonneg_right hg)⟩,
    ?_, ?_, ?_⟩
  · intro hlt
    exact updateSlot_below g us objects uid j e hge comp hc sl hj item hitem hlt
  · intro hnl
    have hchar := updateSlot_reaches g us objects uid j e hge comp hc sl hj item hitem
      hnl tu hct te hgt acc hacc ds hds
    refine ⟨le_antisymm (min_le_left 1 _) (not_lt.mp hnl), ?_, ?_, ?_⟩
    · intro hdecl
      rw [hchar, if_neg (by simp [hdecl])]
    · intro hca htry
      rw [hchar, if_pos hca, htry]
    · intro hca htry
      rw [hchar, if_pos hca, htry]
  · intro hnd hg hp hdecl
    exact iterateUpdateSlot_pinned g us objects uid j hnd e hge comp hc sl hj item
      hitem tu hct te hgt acc hacc ds hds hg hp hdecl

/-- Witness for C2: the declining-acceptor world is a fixed point of five
consecutive ticks of the slot body. -/
theorem c2_witness :
    (getObject c2Objects 1 = some c2Src
      ∧ c2Src.components.ItemEjector = some ⟨[c2Slot], some [0]⟩
      ∧ c2Slot.item = some 7
      ∧ c2Slot.progress = 1
      ∧ c2Slot.cachedTargetEntity = some 2
      ∧ getObject c2Objects 2 = some c2Tgt
      ∧ c2Slot.cachedDestSlot = some ⟨0, Direction.left⟩
      ∧ (uidsOf c2Objects).Nodup)
    ∧ iterateUpdateSlot 0 0 1 0 5 c2Objects = Except.ok c2Objects :=
  ⟨⟨rfl, rfl, rfl, rfl, rfl, rfl, rfl, by decide⟩,
    (c2_progress_capped_item_conserved 0 0 c2Objects 1 0 c2Src rfl
        ⟨[c2Slot], some [0]⟩ rfl c2Slot rfl 7 rfl 2 rfl c2Tgt rfl
        ⟨fun _ _ => none, fun _ _ => false⟩ rfl ⟨0, Direction.left⟩ rfl).2.2.2
      (by decide) (le_refl 0) rfl rfl 5⟩

/-- C3 counterexample: entity 2 has been destroyed (absent from the map
and the tracked list, alive only on the heap), entity 1's slot cache still
references it, the slot holds item 7 at progress 1 — and the update tick
does not skip the slot: it succeeds and clears the item, handing it to the
destroyed entity through the stale reference. -/
theorem c3_counterexample :
    c2Slot.cachedTargetEntity = some 2
    ∧ c3State.allEntities.contains 2 = false
    ∧ c3State.map.all (fun p => !(decide (p.2 = 2))) = true
    ∧ (getObject c3State.objects 2).isSome = true
    ∧ slotItem c3State 1 0 = some 7
    ∧ updatedSlotItem 0 0 c3State 1 0 = some none := by
  refine ⟨rfl, by decide, by decide, rfl, rfl, ?_⟩
  have hnl : ¬ min 1 (c2Slot.progress + 0) < 1 := by
    show ¬ min 1 ((1 : Rat) + 0) < 1
    rw [add_zero, min_self]
    exact lt_irrefl 1
  have hslot : updateSlot 0 0 c3State.objects 1 0
      = Except.ok (mapObject c3State.objects 1 (setEntitySlot 0
          { c2Slot with progress := min 1 (c2Slot.progress + 0), item := none })) := by
    rw [updateSlot_reaches 0 0 c3State.objects 1 0 c2Src rfl ⟨[c2Slot], some [0]⟩ rfl
      c2Slot rfl 7 rfl hnl 2 rfl c3Tgt rfl ⟨fun _ _ => none, fun _ _ => true⟩ rfl
      ⟨0, Direction.left⟩ rfl]
    rw [if_pos rfl]
    rfl
  have h2 : updateEntitySlots 0 0 c3State.objects 1
      = Except.ok (mapObject c3State.objects 1 (setEntitySlot 0
          { c2Slot with progress := min 1 (c2Slot.progress + 0), item := none })) := by
    have hstep : updateEntitySlots 0 0 c3State.objects 1
        = (updateSlot 0 0 c3State.objects 1 0 >>= fun os =>
            List.foldlM (fun os j => updateSlot 0 0 os 1 j) os []) := rfl
    rw [hstep, hslot]
    rfl
  have h3 : c3State.allEntities.foldlM (fun os uid => updateEntitySlots 0 0 os uid)
      c3State.objects
      = Except.ok (mapObject c3State.objects 1 (setEntitySlot 0
          { c2Slot with progress := min 1 (c2Slot.progress + 0), item := none })) := by
    have hstep : c3State.allEntities.foldlM (fun os uid => updateEntitySlots 0 0 os uid)
        c3State.objects
        = (updateEntitySlots 0 0 c3State.objects 1 >>= fun os =>
            List.foldlM (fun os uid => updateEntitySlots 0 0 os uid) os []) := rfl
    rw [hstep, h2]
    rfl
  have hupd : update 0 0 c3State
      = Except.ok { c3State with
          objects := mapObject c3State.objects 1 (setEntitySlot 0
            { c2Slot with progress := min 1 (c2Slot.progress + 0), item := none }) } := by
    have hstep : update 0 0 c3State
        = (match c3State.allEntities.foldlM (fun os uid => updateEntitySlots 0 0 os uid)
              c3State.objects with
          | Except.error msg => Except.error msg
          | Except.ok os => Except.ok { c3State with objects := os }) := rfl
    rw [hstep, h3]
  show updatedSlotItem 0 0 c3State 1 0 = some none
  unfold updatedSlotItem
  rw [hupd]
  rfl

/-- C3 amended: the tick body performs no liveness check on
cachedTargetEntity. The hypotheses that the target uid was destroyed
(absent from the tracked list and the map) are never consulted: the body
dereferences the stale reference on the heap, queries the destroyed
entity's acceptor, and on acceptance hands the item over and clears the
slot — it is not skipped, and it does not crash only because the heap
object outlives destruction. -/
theorem c3_amended_no_liveness_check (g us : Rat) (s : GameState) (uid j : Nat)
    (e : Entity) (hge : getObject s.objects uid = some e)
    (comp : ItemEjectorComponent) (hc : e.components.ItemEjector = some comp)
    (sl : EjectorSlot) (hj : comp.slots[j]? = some sl)
    (item : Item) (hitem : sl.item = some item)
    (hnl : ¬ min 1 (sl.progress + g) < 1)
    (tu : Nat) (hct : sl.cachedTargetEntity = some tu)
    (hdead1 : tu ∉ s.allEntities) (hdead2 : ∀ p ∈ s.map, p.2 ≠ tu)
    (te : Entity) (hgt : getObject s.objects tu = some te)
    (acc : ItemAcceptorComponent) (hacc : te.components.ItemAcceptor = some acc)
    (ds : AcceptorSlotMatch) (hds : sl.cachedDestSlot = some ds)
    (hca : acc.canAcceptItem ds.index item = true)
    (htry : tryPassOverItem item te ds.index us = Except.ok true) :
    updateSlot g us s.objects uid j = Except.ok (mapObject s.objects uid
      (setEntitySlot j { sl with
        progress := min 1 (sl.progress + g), item := none })) := by
  rw [updateSlot_reaches g us s.objects uid j e hge comp hc sl hj item hitem hnl
    tu hct te hgt acc hacc ds hds, if_pos hca, htry]

/-- Witness for the amended C3 theorem at the destroyed-target world. -/
theorem c3_amended_witness :
    (getObject c3State.objects 1 = some c2Src
      ∧ c2Slot.item = some 7
      ∧ ¬ min 1 (c2Slot.progress + 0) < 1
      ∧ c2Slot.cachedTargetEntity = some 2
      ∧ c3State.allEntities.contains 2 = false
      ∧ getObject c3State.objects 2 = some c3Tgt
      ∧ tryPassOverItem 7 c3Tgt 0 0 = Except.ok true)
    ∧ updateSlot 0 0 c3State.objects 1 0 = Except.ok (mapObject c3State.objects 1
        (setEntitySlot 0 { c2Slot with
          progress := min 1 (c2Slot.progress + 0), item := none })) := by
  have hnl : ¬ min 1 (c2Slot.progress + 0) < 1 := by
    show ¬ min 1 ((1 : Rat) + 0) < 1
    rw [add_zero, min_self]
    exact lt_irrefl 1
  exact ⟨⟨rfl, rfl, hnl, rfl, by decide, rfl, rfl⟩,
    c3_amended_no_liveness_check 0 0 c3State 1 0 c2Src rfl ⟨[c2Slot], some [0]⟩ rfl
      c2Slot rfl 7 rfl hnl 2 rfl (by decide) (by decide) c3Tgt rfl
      ⟨fun _ _ => none, fun _ _ => true⟩ rfl ⟨0, Direction.left⟩ rfl rfl rfl⟩

end ItemEjector
